import Mathlib

/-!
# DCS-BIOS Arduino library: protocol parser, registries and input adapters

A shallow embedding of `DcsBios.h` / `DcsBios.cpp`.

Target conventions (AVR Arduino): `unsigned char` is 8 bits, `unsigned int`
is 16 bits, `char` and `signed char` are signed and 8 bits; the states the
input adapters keep in a `char` are small and non-negative.  Machine integers are natural numbers (or integers) with the
wrap-around written out.  Calls that leave the translation unit
(`onDcsBiosWrite`, `sendDcsBiosMessage`, virtual methods of registered
objects) are recorded, in program order, in the list a function returns.
-/

namespace DcsBios

/-! ## Parse states (`#define DCSBIOS_STATE_*`) -/

def DCSBIOS_STATE_WAIT_FOR_SYNC : Nat := 0
def DCSBIOS_STATE_ADDRESS_LOW : Nat := 1
def DCSBIOS_STATE_ADDRESS_HIGH : Nat := 2
def DCSBIOS_STATE_COUNT_LOW : Nat := 3
def DCSBIOS_STATE_COUNT_HIGH : Nat := 4
def DCSBIOS_STATE_DATA_LOW : Nat := 5
def DCSBIOS_STATE_DATA_HIGH : Nat := 6

/-- The calls `ProtocolParser::processChar` makes to the outside: the
sketch's global `onDcsBiosWrite`, and the two static dispatchers of
`ExportStreamListener`. -/
inductive Call where
  | onDcsBiosWrite (address value : Nat)
  | handleDcsBiosWrite (address value : Nat)
  | handleDcsBiosFrameSync
  deriving DecidableEq, Repr

/-- Fields of `class ProtocolParser`. -/
structure ProtocolParser where
  state : Nat
  address : Nat
  count : Nat
  data : Nat
  sync_byte_count : Nat
  deriving DecidableEq, Repr

namespace ProtocolParser

/-- The constructor `ProtocolParser::ProtocolParser()`: it sets `state` and
`sync_byte_count` only; `address`, `count` and `data` keep whatever the
storage held, passed here as `address0 count0 data0`. -/
def new (address0 count0 data0 : Nat) : ProtocolParser :=
  { state := DCSBIOS_STATE_WAIT_FOR_SYNC
    address := address0
    count := count0
    data := data0
    sync_byte_count := 0 }

/-- The `switch (state)` of `processChar` (lines 17-63): the table-driven
transition, with the calls it makes. `c` is the `unsigned char` argument. -/
def switchState (p : ProtocolParser) (c : Nat) : ProtocolParser × List Call :=
  if p.state = DCSBIOS_STATE_WAIT_FOR_SYNC then
    (p, [])
  else if p.state = DCSBIOS_STATE_ADDRESS_LOW then
    ({ p with address := c, state := DCSBIOS_STATE_ADDRESS_HIGH }, [])
  else if p.state = DCSBIOS_STATE_ADDRESS_HIGH then
    let address := (c <<< 8 ||| p.address) % 65536
    if address ≠ 0x5555 then
      ({ p with address := address, state := DCSBIOS_STATE_COUNT_LOW }, [])
    else
      ({ p with address := address, state := DCSBIOS_STATE_WAIT_FOR_SYNC }, [])
  else if p.state = DCSBIOS_STATE_COUNT_LOW then
    ({ p with count := c, state := DCSBIOS_STATE_COUNT_HIGH }, [])
  else if p.state = DCSBIOS_STATE_COUNT_HIGH then
    ({ p with count := (c <<< 8 ||| p.count) % 65536, state := DCSBIOS_STATE_DATA_LOW }, [])
  else if p.state = DCSBIOS_STATE_DATA_LOW then
    ({ p with data := c, count := (p.count + 65535) % 65536,
              state := DCSBIOS_STATE_DATA_HIGH }, [])
  else if p.state = DCSBIOS_STATE_DATA_HIGH then
    let data := (c <<< 8 ||| p.data) % 65536
    let count := (p.count + 65535) % 65536
    ({ p with data := data, count := count, address := (p.address + 2) % 65536,
              state := if count = 0 then DCSBIOS_STATE_ADDRESS_LOW
                       else DCSBIOS_STATE_DATA_LOW },
     [Call.onDcsBiosWrite p.address data, Call.handleDcsBiosWrite p.address data])
  else
    (p, [])

/-- The sync-byte counter of `processChar` (lines 65-74), run on the parser
the `switch` left. -/
def syncCheck (q : ProtocolParser) (c : Nat) : ProtocolParser × List Call :=
  let n := if c = 0x55 then (q.sync_byte_count + 1) % 256 else 0
  if n = 4 then
    ({ q with state := DCSBIOS_STATE_ADDRESS_LOW, sync_byte_count := 0 },
     [Call.handleDcsBiosFrameSync])
  else
    ({ q with sync_byte_count := n }, [])

/-- The method `ProtocolParser::processChar(unsigned char c)`: the new parser
and the calls made, in order. -/
def processChar (p : ProtocolParser) (c : Nat) : ProtocolParser × List Call :=
  let r := switchState p c
  let t := syncCheck r.1 c
  (t.1, r.2 ++ t.2)

/-- Calling `processChar` once per byte of `bs`, in order. -/
def feed (p : ProtocolParser) : List Nat → ProtocolParser × List Call
  | [] => (p, [])
  | c :: bs =>
    let r := processChar p c
    let t := feed r.1 bs
    (t.1, r.2 ++ t.2)

end ProtocolParser

/-! ## Registries

Registered objects are named by their address; `none` is `NULL`. Both
registries are intrusive singly linked lists: a static head pointer and a
`next` field in every object. -/

/-- The loop shared by the three static dispatchers:
`el = first; while (el) { body(el); el = el->next; }`. It returns the calls
made by the body, or `none` when `fuel` iterations did not reach `NULL`. -/
def whileLinked {β : Type} (next : Nat → Option Nat) (body : Nat → β) :
    Nat → Option Nat → Option (List β)
  | _, none => some []
  | 0, some _ => none
  | fuel + 1, some el => (whileLinked next body fuel (next el)).map (body el :: ·)

/-- Calls of the virtual methods of a registered listener `el`. -/
inductive ListenerCall where
  | onDcsBiosWrite (el address value : Nat)
  | onDcsBiosFrameSync (el : Nat)
  deriving DecidableEq, Repr

/-- The static member `firstExportStreamListener` and, for every object, its
field `nextExportStreamListener`. -/
structure ExportStreamListener where
  firstExportStreamListener : Option Nat
  nextExportStreamListener : Nat → Option Nat

namespace ExportStreamListener

/-- Program start: the head is `NULL` (line 8 of `DcsBios.cpp`); the fields of
objects not yet constructed hold anything. -/
def start (next0 : Nat → Option Nat) : ExportStreamListener :=
  { firstExportStreamListener := none, nextExportStreamListener := next0 }

/-- The constructor `ExportStreamListener()` run for the object `this`. -/
def construct (r : ExportStreamListener) (this : Nat) : ExportStreamListener :=
  { nextExportStreamListener :=
      fun q => if q = this then r.firstExportStreamListener else r.nextExportStreamListener q
    firstExportStreamListener := some this }

/-- The static `handleDcsBiosWrite(address, value)`: the registry afterwards
and the virtual calls made. -/
def handleDcsBiosWrite (r : ExportStreamListener) (address value fuel : Nat) :
    Option (ExportStreamListener × List ListenerCall) :=
  (whileLinked r.nextExportStreamListener
      (fun el => ListenerCall.onDcsBiosWrite el address value) fuel
      r.firstExportStreamListener).map (fun calls => (r, calls))

/-- The static `handleDcsBiosFrameSync()`. -/
def handleDcsBiosFrameSync (r : ExportStreamListener) (fuel : Nat) :
    Option (ExportStreamListener × List ListenerCall) :=
  (whileLinked r.nextExportStreamListener ListenerCall.onDcsBiosFrameSync fuel
      r.firstExportStreamListener).map (fun calls => (r, calls))

end ExportStreamListener

/-- A call of the virtual `pollInput()` of the registered input `pi`. -/
inductive PollCall where
  | pollInput (pi : Nat)
  deriving DecidableEq, Repr

/-- The static member `firstPollingInput` and, for every object, its field
`nextPollingInput`. -/
structure PollingInput where
  firstPollingInput : Option Nat
  nextPollingInput : Nat → Option Nat

namespace PollingInput

/-- Program start: the head is `NULL` (line 7 of `DcsBios.cpp`). -/
def start (next0 : Nat → Option Nat) : PollingInput :=
  { firstPollingInput := none, nextPollingInput := next0 }

/-- The constructor `PollingInput()` run for the object `this`. -/
def construct (r : PollingInput) (this : Nat) : PollingInput :=
  { nextPollingInput := fun q => if q = this then r.firstPollingInput else r.nextPollingInput q
    firstPollingInput := some this }

/-- The static `pollInputs()`. -/
def pollInputs (r : PollingInput) (fuel : Nat) : Option (PollingInput × List PollCall) :=
  (whileLinked r.nextPollingInput PollCall.pollInput fuel r.firstPollingInput).map
    (fun calls => (r, calls))

end PollingInput

/-- The objects met from `el` by following `next` are exactly `l`, ending at
`NULL`. -/
def linked (next : Nat → Option Nat) : Option Nat → List Nat → Prop
  | el, [] => el = none
  | el, x :: xs => el = some x ∧ linked next (next x) xs

/-! ## Input adapters

`digitalRead` and `analogRead` are the pin readings at the time of the call,
given as functions of the pin. -/

def HIGH : Nat := 1
def LOW : Nat := 0

/-- A call `sendDcsBiosMessage(msg, args)`. -/
structure Message where
  msg : String
  args : String
  deriving DecidableEq, Repr

/-- Conversion to `unsigned int`. -/
def toUInt (x : Int) : Nat := (x % 65536).toNat

/-- The digits written by `utoa(value, buf, 10)`; the argument is converted to
`unsigned int`. -/
def utoa (value : Nat) : String := Nat.repr (value % 65536)

/-- Fields of `class ActionButton`. -/
structure ActionButton where
  msg_ : String
  arg_ : String
  pin_ : Nat
  lastState_ : Nat
  deriving DecidableEq, Repr

/-- The method `ActionButton::pollInput()`. -/
def ActionButton.pollInput (b : ActionButton) (digitalRead : Nat → Nat) :
    ActionButton × List Message :=
  let state := digitalRead b.pin_
  let sent : List Message :=
    if state ≠ b.lastState_ then
      if b.lastState_ = HIGH ∧ state = LOW then [⟨b.msg_, b.arg_⟩] else []
    else []
  ({ b with lastState_ := state }, sent)

/-- Fields of `class Switch2Pos`. -/
structure Switch2Pos where
  msg_ : String
  pin_ : Nat
  lastState_ : Nat
  reverse_ : Bool
  deriving DecidableEq, Repr

/-- The state `Switch2Pos::pollInput()` compares: the pin level, negated with
`!` when `reverse_` is set. -/
def Switch2Pos.sample (sw : Switch2Pos) (digitalRead : Nat → Nat) : Nat :=
  let state := digitalRead sw.pin_
  if sw.reverse_ then (if state = 0 then 1 else 0) else state

/-- The method `Switch2Pos::pollInput()`. -/
def Switch2Pos.pollInput (sw : Switch2Pos) (digitalRead : Nat → Nat) :
    Switch2Pos × List Message :=
  let state := sw.sample digitalRead
  let sent : List Message :=
    if state ≠ sw.lastState_ then [⟨sw.msg_, if state = HIGH then "0" else "1"⟩] else []
  ({ sw with lastState_ := state }, sent)

/-- Fields of `class Switch3Pos`. -/
structure Switch3Pos where
  msg_ : String
  pinA_ : Nat
  pinB_ : Nat
  lastState_ : Nat
  reverse_ : Bool
  deriving DecidableEq, Repr

/-- The method `Switch3Pos::readState()`. -/
def Switch3Pos.readState (sw : Switch3Pos) (digitalRead : Nat → Nat) : Nat :=
  if sw.reverse_ then
    if digitalRead sw.pinA_ = LOW then 2
    else if digitalRead sw.pinB_ = LOW then 0
    else 1
  else
    if digitalRead sw.pinA_ = LOW then 0
    else if digitalRead sw.pinB_ = LOW then 2
    else 1

/-- The method `Switch3Pos::pollInput()`. -/
def Switch3Pos.pollInput (sw : Switch3Pos) (digitalRead : Nat → Nat) :
    Switch3Pos × List Message :=
  let state := sw.readState digitalRead
  let sent : List Message :=
    if state ≠ sw.lastState_ then
      (if state = 0 then [⟨sw.msg_, "0"⟩] else [])
        ++ (if state = 1 then [⟨sw.msg_, "1"⟩] else [])
        ++ (if state = 2 then [⟨sw.msg_, "2"⟩] else [])
    else []
  ({ sw with lastState_ := state }, sent)

/-- Fields of `class Potentiometer`. -/
structure Potentiometer where
  msg_ : String
  pin_ : Nat
  lastState_ : Nat
  deriving DecidableEq, Repr

/-- The method `Potentiometer::pollInput()`. The Arduino core function `map`
is a parameter; its `long` result is converted to `unsigned int`. -/
def Potentiometer.pollInput (pot : Potentiometer) (analogRead : Nat → Int)
    (map : Int → Int → Int → Int → Int → Int) : Potentiometer × List Message :=
  let state := toUInt (map (analogRead pot.pin_) 0 1023 0 65535)
  let sent : List Message :=
    if state ≠ pot.lastState_ then [⟨pot.msg_, utoa state⟩] else []
  ({ pot with lastState_ := state }, sent)

/-- Fields of `class SwitchMultiPosPot`; the array `levels_` is a function of
the index. -/
structure SwitchMultiPosPot where
  msg_ : String
  pin_ : Nat
  levels_ : Nat → Nat
  numberOfLevels_ : Nat
  lastState_ : Nat

/-- The `for` loop of `SwitchMultiPosPot::readState()` from index `i`, with
`remaining` indices left below `numberOfLevels_`. -/
def SwitchMultiPosPot.readStateLoop (levels : Nat → Nat) (val : Nat) : Nat → Nat → Nat
  | 0, i => i
  | remaining + 1, i =>
    if val > levels i then i else SwitchMultiPosPot.readStateLoop levels val remaining (i + 1)

/-- The method `SwitchMultiPosPot::readState()`; the comparison is made in
`unsigned int`. -/
def SwitchMultiPosPot.readState (sw : SwitchMultiPosPot) (analogRead : Nat → Int) : Nat :=
  SwitchMultiPosPot.readStateLoop sw.levels_ (toUInt (analogRead sw.pin_)) sw.numberOfLevels_ 0

/-- The method `SwitchMultiPosPot::pollInput()`. -/
def SwitchMultiPosPot.pollInput (sw : SwitchMultiPosPot) (analogRead : Nat → Int) :
    SwitchMultiPosPot × List Message :=
  let state := sw.readState analogRead
  let sent : List Message :=
    if state ≠ sw.lastState_ then [⟨sw.msg_, utoa state⟩] else []
  ({ sw with lastState_ := state }, sent)

/-- Fields of `class SwitchMultiPos`; the array `pins_` is a function of the
index. -/
structure SwitchMultiPos where
  msg_ : String
  pins_ : Nat → Nat
  numberOfPins_ : Nat
  lastState_ : Nat

/-- The `for` loop of `SwitchMultiPos::readState()` from index `i`, with
`remaining` indices left below `numberOfPins_`. -/
def SwitchMultiPos.readStateLoop (pins : Nat → Nat) (digitalRead : Nat → Nat) :
    Nat → Nat → Nat → Nat
  | 0, _, defaultPin => defaultPin
  | remaining + 1, i, defaultPin =>
    if pins i = 255 then SwitchMultiPos.readStateLoop pins digitalRead remaining (i + 1) i
    else if digitalRead (pins i) = LOW then i
    else SwitchMultiPos.readStateLoop pins digitalRead remaining (i + 1) defaultPin

/-- The method `SwitchMultiPos::readState()`. -/
def SwitchMultiPos.readState (sw : SwitchMultiPos) (digitalRead : Nat → Nat) : Nat :=
  SwitchMultiPos.readStateLoop sw.pins_ digitalRead sw.numberOfPins_ 0 0

/-- The method `SwitchMultiPos::pollInput()`. -/
def SwitchMultiPos.pollInput (sw : SwitchMultiPos) (digitalRead : Nat → Nat) :
    SwitchMultiPos × List Message :=
  let state := sw.readState digitalRead
  let sent : List Message :=
    if state ≠ sw.lastState_ then [⟨sw.msg_, utoa state⟩] else []
  ({ sw with lastState_ := state }, sent)

/-- Wrap-around of `signed char`. -/
def toSChar (x : Int) : Int := (x + 128) % 256 - 128

/-- Fields of `class RotaryEncoder`. -/
structure RotaryEncoder where
  msg_ : String
  decArg_ : String
  incArg_ : String
  pinA_ : Nat
  pinB_ : Nat
  lastState_ : Nat
  delta_ : Int
  deriving DecidableEq, Repr

/-- The method `RotaryEncoder::readState()`. -/
def RotaryEncoder.readState (enc : RotaryEncoder) (digitalRead : Nat → Nat) : Nat :=
  (digitalRead enc.pinA_ <<< 1) ||| digitalRead enc.pinB_

/-- The `switch (lastState_)` of `RotaryEncoder::pollInput()`: the new
`delta_`. The two `if`s of a case run one after the other. -/
def RotaryEncoder.step (lastState state : Nat) (delta : Int) : Int :=
  let dec (on_ : Nat) (d : Int) : Int := if state = on_ then toSChar (d - 1) else d
  let inc (on_ : Nat) (d : Int) : Int := if state = on_ then toSChar (d + 1) else d
  if lastState = 0 then inc 1 (dec 2 delta)
  else if lastState = 1 then inc 3 (dec 0 delta)
  else if lastState = 2 then inc 0 (dec 3 delta)
  else if lastState = 3 then inc 2 (dec 1 delta)
  else delta

/-- The method `RotaryEncoder::pollInput()`. -/
def RotaryEncoder.pollInput (enc : RotaryEncoder) (digitalRead : Nat → Nat) :
    RotaryEncoder × List Message :=
  let state := enc.readState digitalRead
  let delta1 := RotaryEncoder.step enc.lastState_ state enc.delta_
  let sent1 : List Message := if delta1 = 4 then [⟨enc.msg_, enc.incArg_⟩] else []
  let delta2 : Int := if delta1 = 4 then 0 else delta1
  let sent2 : List Message := if delta2 = -4 then [⟨enc.msg_, enc.decArg_⟩] else []
  let delta3 : Int := if delta2 = -4 then 0 else delta2
  ({ enc with lastState_ := state, delta_ := delta3 }, sent1 ++ sent2)

/-- The constructor `RotaryEncoder(msg, decArg, incArg, pinA, pinB)`;
`digitalRead` gives the pin levels at construction. -/
def RotaryEncoder.new (msg decArg incArg : String) (pinA pinB : Nat)
    (digitalRead : Nat → Nat) : RotaryEncoder :=
  let enc : RotaryEncoder :=
    { msg_ := msg, decArg_ := decArg, incArg_ := incArg, pinA_ := pinA, pinB_ := pinB,
      lastState_ := 0, delta_ := 0 }
  { enc with lastState_ := enc.readState digitalRead }

/-- Calling `pollInput()` once per entry of `readings`, in order; the messages
are dropped. -/
def RotaryEncoder.pollAll (enc : RotaryEncoder) (readings : List (Nat → Nat)) : RotaryEncoder :=
  readings.foldl (fun e digitalRead => (e.pollInput digitalRead).1) enc

/-- The method `Switch2Pos::init_(msg, pin, reverse)`, run by both constructors;
`digitalRead` gives the pin levels at construction. -/
def Switch2Pos.init_ (msg : String) (pin : Nat) (reverse : Bool) (digitalRead : Nat → Nat) :
    Switch2Pos :=
  { msg_ := msg, pin_ := pin, lastState_ := digitalRead pin, reverse_ := reverse }

/-! ## Output adapters -/

/-- Fields of `class StringBuffer<LENGTH>`, with the template parameter. The
`char` array `buffer` is a function of the index; `char` is signed. A call of
`callback_` is recorded with the characters `buffer[0 .. LENGTH]` it can read. -/
structure StringBuffer where
  LENGTH : Nat
  address_ : Nat
  dirty_ : Bool
  buffer : Nat → Int

namespace StringBuffer

/-- The constructor `StringBuffer(address, callback)`: `memset` clears
`buffer[0 .. LENGTH]`. -/
def new (LENGTH address : Nat) : StringBuffer :=
  { LENGTH := LENGTH, address_ := address, dirty_ := false, buffer := fun _ => 0 }

/-- The method `setChar(index, value)`: `value` is an `unsigned char`, the
stored character a `char`, and `==` compares them as integers. -/
def setChar (sb : StringBuffer) (index value : Nat) : StringBuffer :=
  if sb.buffer index = (value : Int) then sb
  else { sb with buffer := fun i => if i = index then toSChar (value : Int) else sb.buffer i,
                 dirty_ := true }

/-- The characters handed to the callback. -/
def contents (sb : StringBuffer) : List Int :=
  (List.range (sb.LENGTH + 1)).map sb.buffer

/-- The stores of `onDcsBiosWrite(address, value)` (lines 199-203); byte 0 of
`value` is its low byte, byte 1 its high byte, and sums are 16-bit. -/
def store (sb : StringBuffer) (address value : Nat) : StringBuffer :=
  if address ≥ sb.address_ ∧ (sb.address_ + sb.LENGTH) % 65536 > address then
    let sb1 := sb.setChar ((address + 65536 - sb.address_) % 65536) (value % 256)
    if (sb.address_ + sb.LENGTH) % 65536 > (address + 1) % 65536 then
      sb1.setChar (((address + 65536 - sb.address_) % 65536 + 1) % 65536) (value / 256 % 256)
    else sb1
  else sb

/-- The method `StringBuffer::onDcsBiosWrite(address, value)`: the buffer
afterwards and the calls of `callback_`. -/
def onDcsBiosWrite (sb : StringBuffer) (address value : Nat) : StringBuffer × List (List Int) :=
  let sb1 := sb.store address value
  if address = 0xfffe then
    if sb1.dirty_ then ({ sb1 with dirty_ := false }, [sb1.contents]) else (sb1, [])
  else (sb1, [])

/-- The method `onDcsBiosFrameSync()`, which `StringBuffer` inherits from
`ExportStreamListener` with the empty body. -/
def onDcsBiosFrameSync (sb : StringBuffer) : StringBuffer × List (List Int) := (sb, [])

/-- A sequence of `onDcsBiosWrite` calls, with all the callback calls. -/
def writeAll (sb : StringBuffer) : List (Nat × Nat) → StringBuffer × List (List Int)
  | [] => (sb, [])
  | w :: ws =>
    let r := sb.onDcsBiosWrite w.1 w.2
    let t := writeAll r.1 ws
    (t.1, r.2 ++ t.2)

end StringBuffer

/-- A call `digitalWrite(pin, level)`. -/
structure DigitalWrite where
  pin : Nat
  level : Nat
  deriving DecidableEq, Repr

/-- Fields of `class LED`. -/
structure LED where
  pin_ : Nat
  address_ : Nat
  mask_ : Nat
  deriving DecidableEq, Repr

/-- The method `LED::onDcsBiosWrite(address, value)`: the pin writes made. -/
def LED.onDcsBiosWrite (led : LED) (address value : Nat) : List DigitalWrite :=
  if led.address_ = address then
    if value &&& led.mask_ ≠ 0 then [⟨led.pin_, HIGH⟩] else [⟨led.pin_, LOW⟩]
  else []

/-! ## Vocabulary for statements about byte streams -/

/-- The sync counter after a byte `c`, when that byte does not complete a run
of four. -/
def syncNext (s c : Nat) : Nat := if c = 0x55 then s + 1 else 0

/-- Starting with `s` bytes `0x55` just seen, no byte of `bs` is the fourth
`0x55` in a row. -/
def quiet : Nat → List Nat → Prop
  | _, [] => True
  | s, c :: bs => ¬ (s = 3 ∧ c = 0x55) ∧ quiet (syncNext s c) bs

/-- The sync counter after the bytes `bs`, none of which completes a run. -/
def syncAfter : Nat → List Nat → Nat
  | s, [] => s
  | s, c :: bs => syncAfter (syncNext s c) bs

/-- The wire form of 16-bit values: low byte first. -/
def dataBytes (vals : List Nat) : List Nat :=
  vals.flatMap (fun v => [v % 256, v / 256])

/-- The wire form of one address/count group: address, count, then the values,
each low byte first. -/
def groupBytes (A N : Nat) (vals : List Nat) : List Nat :=
  [A % 256, A / 256, N % 256, N / 256] ++ dataBytes vals

/-- The calls of the write events number `i`, `i + 1`, ... of a group whose
header address is `A`: event `j` carries address `A + 2 * j` (16-bit) and the
value number `j`, first to `onDcsBiosWrite`, then to the listeners. -/
def writeCallsFrom (A i : Nat) (vals : List Nat) : List Call :=
  (vals.enumFrom i).flatMap (fun jv =>
    [Call.onDcsBiosWrite ((A + 2 * jv.1) % 65536) jv.2,
     Call.handleDcsBiosWrite ((A + 2 * jv.1) % 65536) jv.2])

/-- The 16-bit values carried by data bytes, low byte first: bytes `2 * i` and
`2 * i + 1` give value `i`. -/
def pairValues : List Nat → List Nat
  | lo :: hi :: rest => (lo ||| hi <<< 8) :: pairValues rest
  | _ => []

/-- The rule between a call `x` and the call `y` made right after it: a write
to `0x5555` handed to `onDcsBiosWrite` comes right after the listeners' write
to `0x5553`, and a listeners' write comes right after the `onDcsBiosWrite` call
with the same address and value. -/
def followsRule (x y : Call) : Prop :=
  (∀ v, y = Call.onDcsBiosWrite 0x5555 v → ∃ v', x = Call.handleDcsBiosWrite 0x5553 v')
  ∧ (∀ a v, y = Call.handleDcsBiosWrite a v → x = Call.onDcsBiosWrite a v)

/-- What holds of a parser reached from a fresh one, `last` being the latest
call made: once an address is read it is a 16-bit value, it is not `0x5555`
while the count is read, and in the data states it is `0x5555` only right
after a write to `0x5553`. -/
def sentinelInv (p : ProtocolParser) (last : Call) : Prop :=
  (p.state = 3 ∨ p.state = 4 ∨ p.state = 5 ∨ p.state = 6 → p.address < 65536)
  ∧ (p.state = 3 ∨ p.state = 4 → p.address ≠ 0x5555)
  ∧ (p.state = 5 ∨ p.state = 6 → p.address = 0x5555 →
      ∃ v', last = Call.handleDcsBiosWrite 0x5553 v')

/-! ## Theorems: protocol parser -/

open ProtocolParser

section ParserBasics

/-- The `switch` never touches `sync_byte_count`. -/
theorem switchState_sync_byte_count (p : ProtocolParser) (c : Nat) :
    (switchState p c).1.sync_byte_count = p.sync_byte_count := by
  unfold switchState
  dsimp only
  split_ifs <;> rfl

/-- The `switch` makes calls only in `DATA_HIGH`: the two write calls. -/
theorem switchState_calls (p : ProtocolParser) (c : Nat) :
    (switchState p c).2 =
      if p.state = DCSBIOS_STATE_DATA_HIGH then
        [Call.onDcsBiosWrite p.address ((c <<< 8 ||| p.data) % 65536),
         Call.handleDcsBiosWrite p.address ((c <<< 8 ||| p.data) % 65536)]
      else [] := by
  unfold switchState
  simp only [DCSBIOS_STATE_WAIT_FOR_SYNC, DCSBIOS_STATE_ADDRESS_LOW, DCSBIOS_STATE_ADDRESS_HIGH,
    DCSBIOS_STATE_COUNT_LOW, DCSBIOS_STATE_COUNT_HIGH, DCSBIOS_STATE_DATA_LOW,
    DCSBIOS_STATE_DATA_HIGH]
  split_ifs <;> simp_all

theorem switchState_no_sync (p : ProtocolParser) (c : Nat) :
    Call.handleDcsBiosFrameSync ∉ (switchState p c).2 := by
  rw [switchState_calls]
  split_ifs <;> simp

theorem switchState_wait (a n d s c : Nat) :
    switchState ⟨0, a, n, d, s⟩ c = (⟨0, a, n, d, s⟩, []) := by
  simp [switchState, DCSBIOS_STATE_WAIT_FOR_SYNC]

theorem switchState_address_low (a n d s c : Nat) :
    switchState ⟨1, a, n, d, s⟩ c = (⟨2, c, n, d, s⟩, []) := by
  simp [switchState, DCSBIOS_STATE_WAIT_FOR_SYNC, DCSBIOS_STATE_ADDRESS_LOW,
    DCSBIOS_STATE_ADDRESS_HIGH]

theorem switchState_address_high (a n d s c : Nat) :
    switchState ⟨2, a, n, d, s⟩ c =
      (⟨if (c <<< 8 ||| a) % 65536 = 0x5555 then 0 else 3, (c <<< 8 ||| a) % 65536, n, d, s⟩,
       []) := by
  simp only [switchState, DCSBIOS_STATE_WAIT_FOR_SYNC, DCSBIOS_STATE_ADDRESS_LOW,
    DCSBIOS_STATE_ADDRESS_HIGH, DCSBIOS_STATE_COUNT_LOW]
  split_ifs <;> simp_all

theorem switchState_count_low (a n d s c : Nat) :
    switchState ⟨3, a, n, d, s⟩ c = (⟨4, a, c, d, s⟩, []) := by
  simp [switchState, DCSBIOS_STATE_WAIT_FOR_SYNC, DCSBIOS_STATE_ADDRESS_LOW,
    DCSBIOS_STATE_ADDRESS_HIGH, DCSBIOS_STATE_COUNT_LOW, DCSBIOS_STATE_COUNT_HIGH]

theorem switchState_count_high (a n d s c : Nat) :
    switchState ⟨4, a, n, d, s⟩ c = (⟨5, a, (c <<< 8 ||| n) % 65536, d, s⟩, []) := by
  simp [switchState, DCSBIOS_STATE_WAIT_FOR_SYNC, DCSBIOS_STATE_ADDRESS_LOW,
    DCSBIOS_STATE_ADDRESS_HIGH, DCSBIOS_STATE_COUNT_LOW, DCSBIOS_STATE_COUNT_HIGH,
    DCSBIOS_STATE_DATA_LOW]

theorem switchState_data_low (a n d s c : Nat) :
    switchState ⟨5, a, n, d, s⟩ c = (⟨6, a, (n + 65535) % 65536, c, s⟩, []) := by
  simp [switchState, DCSBIOS_STATE_WAIT_FOR_SYNC, DCSBIOS_STATE_ADDRESS_LOW,
    DCSBIOS_STATE_ADDRESS_HIGH, DCSBIOS_STATE_COUNT_LOW, DCSBIOS_STATE_COUNT_HIGH,
    DCSBIOS_STATE_DATA_LOW, DCSBIOS_STATE_DATA_HIGH]

theorem switchState_data_high (a n d s c : Nat) :
    switchState ⟨6, a, n, d, s⟩ c =
      (⟨if (n + 65535) % 65536 = 0 then 1 else 5, (a + 2) % 65536, (n + 65535) % 65536,
        (c <<< 8 ||| d) % 65536, s⟩,
       [Call.onDcsBiosWrite a ((c <<< 8 ||| d) % 65536),
        Call.handleDcsBiosWrite a ((c <<< 8 ||| d) % 65536)]) := by
  simp [switchState, DCSBIOS_STATE_WAIT_FOR_SYNC, DCSBIOS_STATE_ADDRESS_LOW,
    DCSBIOS_STATE_ADDRESS_HIGH, DCSBIOS_STATE_COUNT_LOW, DCSBIOS_STATE_COUNT_HIGH,
    DCSBIOS_STATE_DATA_LOW, DCSBIOS_STATE_DATA_HIGH]

/-- A byte other than `0x55` clears the counter. -/
theorem syncCheck_other (st a n d s c : Nat) (hc : c ≠ 0x55) :
    syncCheck ⟨st, a, n, d, s⟩ c = (⟨st, a, n, d, 0⟩, []) := by
  simp [syncCheck, hc]

/-- The byte `0x55` below the fourth of a run is counted. -/
theorem syncCheck_count (st a n d s : Nat) (hs : s < 3) :
    syncCheck ⟨st, a, n, d, s⟩ 0x55 = (⟨st, a, n, d, s + 1⟩, []) := by
  have h1 : (s + 1) % 256 = s + 1 := by omega
  have h2 : s + 1 ≠ 4 := by omega
  simp [syncCheck, h1, h2]

/-- The fourth `0x55` of a run forces `ADDRESS_LOW` and dispatches a frame sync. -/
theorem syncCheck_fire (st a n d : Nat) :
    syncCheck ⟨st, a, n, d, 3⟩ 0x55 = (⟨1, a, n, d, 0⟩, [Call.handleDcsBiosFrameSync]) := by
  simp [syncCheck, DCSBIOS_STATE_ADDRESS_LOW]

/-- Low byte and high byte combine as `hi * 256 + lo`. -/
theorem shl8_lor (hi lo : Nat) (hlo : lo < 256) : hi <<< 8 ||| lo = hi * 256 + lo := by
  rw [Nat.shiftLeft_eq, Nat.mul_comm, ← Nat.mul_add_lt_is_or (i := 8) (by simpa using hlo)]

theorem feed_nil (p : ProtocolParser) : feed p [] = (p, []) := rfl

theorem feed_cons (p : ProtocolParser) (c : Nat) (bs : List Nat) :
    feed p (c :: bs) =
      ((feed (processChar p c).1 bs).1, (processChar p c).2 ++ (feed (processChar p c).1 bs).2) :=
  rfl

theorem feed_append (p : ProtocolParser) (bs cs : List Nat) :
    feed p (bs ++ cs) =
      ((feed (feed p bs).1 cs).1, (feed p bs).2 ++ (feed (feed p bs).1 cs).2) := by
  induction bs generalizing p with
  | nil => simp [feed_nil]
  | cons c bs ih => simp [feed_cons, ih, List.append_assoc]

/-- One `0x55` byte: the counter advances modulo 4 and a frame sync is
dispatched exactly when it was at 3. -/
theorem processChar_sync_byte (q : ProtocolParser) (hs : q.sync_byte_count < 4) :
    (processChar q 0x55).1.sync_byte_count = (q.sync_byte_count + 1) % 4
    ∧ (processChar q 0x55).2.count Call.handleDcsBiosFrameSync
        = if q.sync_byte_count = 3 then 1 else 0 := by
  have hsw := switchState_sync_byte_count q 0x55
  have hn := List.count_eq_zero_of_not_mem (switchState_no_sync q 0x55)
  by_cases h3 : q.sync_byte_count = 3
  · simp [processChar, syncCheck, hsw, h3, hn]
  · have h1 : (q.sync_byte_count + 1) % 256 = q.sync_byte_count + 1 := by omega
    have h2 : q.sync_byte_count + 1 ≠ 4 := by omega
    have h4 : (q.sync_byte_count + 1) % 4 = q.sync_byte_count + 1 := by omega
    simp [processChar, syncCheck, hsw, h3, hn, h1, h2, h4]

/-- After `n` bytes `0x55` from counter 0: the counter is `n % 4` and `n / 4`
frame syncs were dispatched. -/
theorem feed_sync_run (p : ProtocolParser) (h0 : p.sync_byte_count = 0) (n : Nat) :
    (feed p (List.replicate n 0x55)).1.sync_byte_count = n % 4
    ∧ (feed p (List.replicate n 0x55)).2.count Call.handleDcsBiosFrameSync = n / 4 := by
  induction n with
  | zero => simp [feed_nil, h0]
  | succ n ih =>
    obtain ⟨ih1, ih2⟩ := ih
    have hlt : (feed p (List.replicate n 0x55)).1.sync_byte_count < 4 := by omega
    obtain ⟨k1, k2⟩ := processChar_sync_byte _ hlt
    rw [List.replicate_succ', feed_append]
    simp only [feed_cons, feed_nil, List.append_nil, List.count_append, k1, k2, ih1, ih2]
    constructor
    · omega
    · split_ifs <;> omega

/-- The fourth `0x55` of a run leaves the parser in `ADDRESS_LOW`. -/
theorem processChar_sync_state (q : ProtocolParser) (h3 : q.sync_byte_count = 3) :
    (processChar q 0x55).1.state = DCSBIOS_STATE_ADDRESS_LOW := by
  simp [processChar, syncCheck, switchState_sync_byte_count, h3]

theorem syncNext_le (s c : Nat) (hs : s ≤ 3) (hq : ¬ (s = 3 ∧ c = 0x55)) : syncNext s c ≤ 3 := by
  unfold syncNext
  split_ifs with h
  · have : s ≠ 3 := fun e => hq ⟨e, h⟩
    omega
  · omega

theorem quiet_cons (s c : Nat) (bs : List Nat) :
    quiet s (c :: bs) ↔ ¬ (s = 3 ∧ c = 0x55) ∧ quiet (syncNext s c) bs := Iff.rfl

/-- A byte that does not complete a sync run: the `switch` decides everything
but the counter. -/
theorem processChar_quiet (p : ProtocolParser) (c : Nat) (hs : p.sync_byte_count ≤ 3)
    (hq : ¬ (p.sync_byte_count = 3 ∧ c = 0x55)) :
    processChar p c =
      ({ (switchState p c).1 with sync_byte_count := syncNext p.sync_byte_count c },
       (switchState p c).2) := by
  have hsw := switchState_sync_byte_count p c
  by_cases hc : c = 0x55
  · subst hc
    have h3 : p.sync_byte_count ≠ 3 := fun e => hq ⟨e, rfl⟩
    have h1 : (p.sync_byte_count + 1) % 256 = p.sync_byte_count + 1 := by omega
    have h2 : p.sync_byte_count + 1 ≠ 4 := by omega
    simp [processChar, syncCheck, hsw, h1, h2, syncNext]
  · simp [processChar, syncCheck, hsw, hc, syncNext]

/-- Four bytes read from `ADDRESS_LOW`, none completing a sync run and the first
two not both `0x55`: they are taken as address and count, no call is made, and
the parser is in `DATA_LOW`. -/
theorem feed_header (a n d s b0 b1 b2 b3 : Nat) (rest : List Nat) (hs : s ≤ 3)
    (h0 : b0 < 256) (h1 : b1 < 256) (h2 : b2 < 256) (h3 : b3 < 256)
    (hne : ¬ (b0 = 0x55 ∧ b1 = 0x55)) (hq : quiet s (b0 :: b1 :: b2 :: b3 :: rest)) :
    ∃ s', s' ≤ 3 ∧ quiet s' rest ∧ s' = syncAfter s [b0, b1, b2, b3] ∧
      feed ⟨1, a, n, d, s⟩ (b0 :: b1 :: b2 :: b3 :: rest)
        = feed ⟨5, b1 * 256 + b0, b3 * 256 + b2, d, s'⟩ rest := by
  obtain ⟨q0, hq⟩ := hq
  obtain ⟨q1, hq⟩ := hq
  obtain ⟨q2, hq⟩ := hq
  obtain ⟨q3, hq⟩ := hq
  have s1 := syncNext_le s b0 hs q0
  have s2 := syncNext_le _ b1 s1 q1
  have s3 := syncNext_le _ b2 s2 q2
  have s4 := syncNext_le _ b3 s3 q3
  refine ⟨_, s4, hq, rfl, ?_⟩
  have ha : ¬ (b1 * 256 + b0) % 65536 = 21845 := by omega
  have ha' : (b1 * 256 + b0) % 65536 = b1 * 256 + b0 := by omega
  have hc' : (b3 * 256 + b2) % 65536 = b3 * 256 + b2 := by omega
  have e1 : processChar ⟨1, a, n, d, s⟩ b0 = (⟨2, b0, n, d, syncNext s b0⟩, []) := by
    rw [processChar_quiet _ _ hs q0, switchState_address_low]
  have e2 : processChar ⟨2, b0, n, d, syncNext s b0⟩ b1
      = (⟨3, b1 * 256 + b0, n, d, syncNext (syncNext s b0) b1⟩, []) := by
    rw [processChar_quiet _ _ s1 q1, switchState_address_high, shl8_lor _ _ h0]
    have ha2 : ¬ b1 * 256 + b0 = 21845 := by omega
    simp [ha, ha', ha2]
  have e3 : processChar ⟨3, b1 * 256 + b0, n, d, syncNext (syncNext s b0) b1⟩ b2
      = (⟨4, b1 * 256 + b0, b2, d, syncNext (syncNext (syncNext s b0) b1) b2⟩, []) := by
    rw [processChar_quiet _ _ s2 q2, switchState_count_low]
  have e4 : processChar ⟨4, b1 * 256 + b0, b2, d, syncNext (syncNext (syncNext s b0) b1) b2⟩ b3
      = (⟨5, b1 * 256 + b0, b3 * 256 + b2, d,
          syncNext (syncNext (syncNext (syncNext s b0) b1) b2) b3⟩, []) := by
    rw [processChar_quiet _ _ s3 q3, switchState_count_high, shl8_lor _ _ h2, hc']
  simp only [feed_cons, e1, e2, e3, e4, List.nil_append]

/-- A stream without four bytes `0x55` in a row never completes a sync run. -/
theorem quiet_of_no_run (bs : List Nat) (s : Nat) (hs : s ≤ 3)
    (h : ¬ (List.replicate 4 0x55 <:+: List.replicate s 0x55 ++ bs)) : quiet s bs := by
  induction bs generalizing s with
  | nil => trivial
  | cons c bs ih =>
    have hq : ¬ (s = 3 ∧ c = 0x55) := by
      rintro ⟨rfl, rfl⟩
      exact h ⟨[], bs, rfl⟩
    refine ⟨hq, ih _ (syncNext_le s c hs hq) ?_⟩
    by_cases hc : c = 0x55
    · subst hc
      have e : List.replicate (syncNext s 0x55) 0x55 ++ bs = List.replicate s 0x55 ++ 0x55 :: bs := by
        simp [syncNext, List.replicate_succ']
      rw [e]
      exact h
    · have e : syncNext s c = 0 := by simp [syncNext, hc]
      rw [e]
      intro hin
      apply h
      have hsuf : bs <:+ List.replicate s 0x55 ++ c :: bs :=
        ⟨List.replicate s 0x55 ++ [c], by simp⟩
      simpa using hin.trans hsuf.isInfix

theorem dataBytes_cons (v : Nat) (vs : List Nat) :
    dataBytes (v :: vs) = v % 256 :: v / 256 :: dataBytes vs := by
  simp [dataBytes, List.flatMap_cons]

theorem writeCallsFrom_cons (A i v : Nat) (vs : List Nat) :
    writeCallsFrom A i (v :: vs) =
      Call.onDcsBiosWrite ((A + 2 * i) % 65536) v
        :: Call.handleDcsBiosWrite ((A + 2 * i) % 65536) v :: writeCallsFrom A (i + 1) vs := by
  simp [writeCallsFrom, List.enumFrom_cons, List.flatMap_cons]

/-- One value read in `DATA_LOW`/`DATA_HIGH`, neither byte completing a sync
run: one write event, address advanced by 2, count lowered by 2. -/
theorem feed_value (a n d s v : Nat) (rest : List Nat) (hs : s ≤ 3) (hv : v < 65536)
    (hn2 : 2 ≤ n) (hn : n < 65536) (hq : quiet s (v % 256 :: v / 256 :: rest)) :
    ∃ s', s' ≤ 3 ∧ quiet s' rest ∧
      feed ⟨5, a, n, d, s⟩ (v % 256 :: v / 256 :: rest)
        = ((feed ⟨if n = 2 then 1 else 5, (a + 2) % 65536, n - 2, v, s'⟩ rest).1,
           Call.onDcsBiosWrite a v :: Call.handleDcsBiosWrite a v
             :: (feed ⟨if n = 2 then 1 else 5, (a + 2) % 65536, n - 2, v, s'⟩ rest).2) := by
  obtain ⟨q0, q1, hq⟩ := hq
  have s1 := syncNext_le s _ hs q0
  have s2 := syncNext_le _ _ s1 q1
  refine ⟨_, s2, hq, ?_⟩
  have hlo : v % 256 < 256 := Nat.mod_lt _ (by norm_num)
  have hval : (v / 256 * 256 + v % 256) % 65536 = v := by omega
  have hn1 : (n + 65535) % 65536 = n - 1 := by omega
  have hn2' : (n - 1 + 65535) % 65536 = n - 2 := by omega
  have e1 : processChar ⟨5, a, n, d, s⟩ (v % 256)
      = (⟨6, a, n - 1, v % 256, syncNext s (v % 256)⟩, []) := by
    rw [processChar_quiet _ _ hs q0, switchState_data_low, hn1]
  have e2 : processChar ⟨6, a, n - 1, v % 256, syncNext s (v % 256)⟩ (v / 256)
      = (⟨if n = 2 then 1 else 5, (a + 2) % 65536, n - 2, v,
          syncNext (syncNext s (v % 256)) (v / 256)⟩,
         [Call.onDcsBiosWrite a v, Call.handleDcsBiosWrite a v]) := by
    rw [processChar_quiet _ _ s1 q1, switchState_data_high, shl8_lor _ _ hlo, hval, hn2']
    have hz : (n - 2 = 0) ↔ (n = 2) := by omega
    simp [hz]
  simp only [feed_cons, e1, e2, List.nil_append, List.cons_append]

/-- The values of a group, read from `DATA_LOW` with the count at twice their
number and no byte completing a sync run: one write event per value, addresses
rising by 2, and `ADDRESS_LOW` at the end. -/
theorem feed_values (A : Nat) (vs : List Nat) :
    ∀ (v i d s : Nat), s ≤ 3 → (∀ x ∈ v :: vs, x < 65536) → 2 * (vs.length + 1) < 65536 →
      quiet s (dataBytes (v :: vs)) →
      (feed ⟨5, (A + 2 * i) % 65536, 2 * (vs.length + 1), d, s⟩ (dataBytes (v :: vs))).1.state
          = DCSBIOS_STATE_ADDRESS_LOW
      ∧ (feed ⟨5, (A + 2 * i) % 65536, 2 * (vs.length + 1), d, s⟩ (dataBytes (v :: vs))).2
          = writeCallsFrom A i (v :: vs) := by
  induction vs with
  | nil =>
    intro v i d s hs hv hlen hq
    rw [dataBytes_cons] at hq ⊢
    obtain ⟨s', -, -, hf⟩ := feed_value ((A + 2 * i) % 65536) (2 * 1) d s v (dataBytes [])
      hs (hv v (by simp)) (by omega) (by omega) hq
    simp only [List.length_nil, Nat.zero_add]
    rw [hf]
    simp [dataBytes, feed_nil, writeCallsFrom_cons, writeCallsFrom, DCSBIOS_STATE_ADDRESS_LOW]
  | cons w ws ih =>
    intro v i d s hs hv hlen hq
    rw [dataBytes_cons] at hq ⊢
    simp only [List.length_cons] at hlen ⊢
    obtain ⟨s', hs', hq', hf⟩ := feed_value ((A + 2 * i) % 65536) (2 * (ws.length + 1 + 1)) d s v
      (dataBytes (w :: ws)) hs (hv v (by simp)) (by omega) (by omega) hq
    rw [hf]
    have hne : ¬ (2 * (ws.length + 1 + 1) = 2) := by omega
    have ha : ((A + 2 * i) % 65536 + 2) % 65536 = (A + 2 * (i + 1)) % 65536 := by omega
    have hc : 2 * (ws.length + 1 + 1) - 2 = 2 * (ws.length + 1) := by omega
    rw [if_neg hne, ha, hc]
    obtain ⟨h1, h2⟩ := ih w (i + 1) v s' hs' (fun x hx => hv x (List.mem_cons_of_mem _ hx))
      (by omega) hq'
    refine ⟨h1, ?_⟩
    rw [h2]
    exact (writeCallsFrom_cons A i v (w :: ws)).symm

/-- Four bytes `0x55` met in `WAIT_FOR_SYNC` with counter 0. -/
theorem feed_sync4_wait (a n d : Nat) :
    feed ⟨0, a, n, d, 0⟩ [0x55, 0x55, 0x55, 0x55]
      = (⟨1, a, n, d, 0⟩, [Call.handleDcsBiosFrameSync]) := by
  simp [feed, processChar, switchState_wait, syncCheck_count, syncCheck_fire]

/-- Four bytes `0x55` met in `ADDRESS_LOW` with counter 0. -/
theorem feed_sync4_address_low (a n d : Nat) :
    feed ⟨1, a, n, d, 0⟩ [0x55, 0x55, 0x55, 0x55]
      = (⟨1, 0x5555, n, d, 0⟩, [Call.handleDcsBiosFrameSync]) := by
  simp [feed, processChar, switchState_wait, switchState_address_low, switchState_address_high,
    syncCheck_count, syncCheck_fire]

/-- Further groups of four `0x55` after a sync: one frame sync each, nothing else. -/
theorem feed_sync_groups (m a n d : Nat) :
    ∃ a', feed ⟨1, a, n, d, 0⟩ (List.replicate (4 * m) 0x55)
      = (⟨1, a', n, d, 0⟩, List.replicate m Call.handleDcsBiosFrameSync) := by
  induction m generalizing a with
  | zero => exact ⟨a, rfl⟩
  | succ m ih =>
    obtain ⟨a', h⟩ := ih 0x5555
    refine ⟨a', ?_⟩
    have e : List.replicate (4 * (m + 1)) 0x55
        = [0x55, 0x55, 0x55, 0x55] ++ List.replicate (4 * m) 0x55 := by
      rw [show 4 * (m + 1) = 4 * m + 4 by ring]
      simp [List.replicate_succ]
    rw [e, feed_append, feed_sync4_address_low, h]
    simp [List.replicate_succ]

/-- A fresh parser fed a sync run whose length is a positive multiple of 4. -/
theorem feed_sync_run_new (address0 count0 data0 m : Nat) :
    ∃ a', feed (new address0 count0 data0) (List.replicate (4 * (m + 1)) 0x55)
      = (⟨1, a', count0, data0, 0⟩, List.replicate (m + 1) Call.handleDcsBiosFrameSync) := by
  obtain ⟨a', h⟩ := feed_sync_groups m address0 count0 data0
  refine ⟨a', ?_⟩
  have e : List.replicate (4 * (m + 1)) 0x55
      = [0x55, 0x55, 0x55, 0x55] ++ List.replicate (4 * m) 0x55 := by
    rw [show 4 * (m + 1) = 4 * m + 4 by ring]
    simp [List.replicate_succ]
  have hn : new address0 count0 data0 = ⟨0, address0, count0, data0, 0⟩ := rfl
  rw [e, feed_append, hn, feed_sync4_wait, h]
  simp [List.replicate_succ]

theorem switchState_sentinelInv (p : ProtocolParser) (c : Nat) (last : Call)
    (h : sentinelInv p last) :
    ∃ last', sentinelInv (switchState p c).1 last' ∧
      ∀ l, List.Chain followsRule last' l →
        List.Chain followsRule last ((switchState p c).2 ++ l) := by
  obtain ⟨st, a, n, d, s⟩ := p
  obtain ⟨hlt, hc, hd⟩ := h
  simp only at hlt hc hd
  by_cases h0 : st = 0
  · subst h0
    rw [switchState_wait]
    exact ⟨last, by simp [sentinelInv], fun l hl => hl⟩
  by_cases h1 : st = 1
  · subst h1
    rw [switchState_address_low]
    exact ⟨last, by simp [sentinelInv], fun l hl => hl⟩
  by_cases h2 : st = 2
  · subst h2
    rw [switchState_address_high]
    refine ⟨last, ?_, fun l hl => hl⟩
    have hm : (c <<< 8 ||| a) % 65536 < 65536 := Nat.mod_lt _ (by norm_num)
    by_cases e : (c <<< 8 ||| a) % 65536 = 21845
    · simp [sentinelInv, e]
    · simp [sentinelInv, e, hm]
  by_cases h3 : st = 3
  · subst h3
    rw [switchState_count_low]
    exact ⟨last, ⟨fun _ => hlt (by simp), fun _ => hc (by simp), by simp⟩, fun l hl => hl⟩
  by_cases h4 : st = 4
  · subst h4
    rw [switchState_count_high]
    refine ⟨last, ⟨fun _ => hlt (by simp), by simp, fun _ e => ?_⟩, fun l hl => hl⟩
    exact absurd e (hc (by simp))
  by_cases h5 : st = 5
  · subst h5
    rw [switchState_data_low]
    exact ⟨last, ⟨fun _ => hlt (by simp), by simp, fun _ e => hd (by simp) e⟩, fun l hl => hl⟩
  by_cases h6 : st = 6
  · subst h6
    rw [switchState_data_high]
    have ha : a < 65536 := hlt (by simp)
    refine ⟨Call.handleDcsBiosWrite a ((c <<< 8 ||| d) % 65536), ⟨?_, ?_, ?_⟩, ?_⟩
    · intro _
      exact Nat.mod_lt _ (by norm_num)
    · intro hst
      split_ifs at hst <;> simp at hst
    · intro _ e
      have e' : (a + 2) % 65536 = 21845 := e
      have : a = 21843 := by omega
      exact ⟨_, by rw [this]⟩
    · intro l hl
      refine List.Chain.cons ⟨?_, ?_⟩ (List.Chain.cons ⟨?_, ?_⟩ hl)
      · intro v e
        injection e with e1 e2
        exact hd (by simp) e1
      · intro a' v e
        cases e
      · intro v e
        cases e
      · intro a' v e
        injection e with e1 e2
        rw [e1, e2]
  · refine ⟨last, ?_, ?_⟩
    · have e : switchState ⟨st, a, n, d, s⟩ c = (⟨st, a, n, d, s⟩, []) := by
        simp [switchState, DCSBIOS_STATE_WAIT_FOR_SYNC, DCSBIOS_STATE_ADDRESS_LOW,
          DCSBIOS_STATE_ADDRESS_HIGH, DCSBIOS_STATE_COUNT_LOW, DCSBIOS_STATE_COUNT_HIGH,
          DCSBIOS_STATE_DATA_LOW, DCSBIOS_STATE_DATA_HIGH, h0, h1, h2, h3, h4, h5, h6]
      rw [e]
      exact ⟨hlt, hc, hd⟩
    · intro l hl
      have e : (switchState ⟨st, a, n, d, s⟩ c).2 = [] := by
        rw [switchState_calls]
        simp [DCSBIOS_STATE_DATA_HIGH, h6]
      rw [e]
      exact hl

theorem syncCheck_sentinelInv (q : ProtocolParser) (c : Nat) (last : Call)
    (h : sentinelInv q last) :
    ∃ last', sentinelInv (syncCheck q c).1 last' ∧
      ∀ l, List.Chain followsRule last' l →
        List.Chain followsRule last ((syncCheck q c).2 ++ l) := by
  unfold syncCheck
  dsimp only
  by_cases hf : (if c = 0x55 then (q.sync_byte_count + 1) % 256 else 0) = 4
  · rw [if_pos hf]
    refine ⟨Call.handleDcsBiosFrameSync, by simp [sentinelInv, DCSBIOS_STATE_ADDRESS_LOW], ?_⟩
    intro l hl
    refine List.Chain.cons ⟨?_, ?_⟩ hl
    · intro v e
      cases e
    · intro a v e
      cases e
  · rw [if_neg hf]
    exact ⟨last, h, fun l hl => hl⟩

theorem feed_sentinelInv (bs : List Nat) :
    ∀ (p : ProtocolParser) (last : Call), sentinelInv p last →
      List.Chain followsRule last (feed p bs).2 := by
  induction bs with
  | nil => intro p last _; exact List.Chain.nil
  | cons c bs ih =>
    intro p last h
    obtain ⟨l1, i1, k1⟩ := switchState_sentinelInv p c last h
    obtain ⟨l2, i2, k2⟩ := syncCheck_sentinelInv (switchState p c).1 c l1 i1
    have := ih (processChar p c).1 l2 i2
    rw [feed_cons]
    show List.Chain followsRule last
      (((switchState p c).2 ++ (syncCheck (switchState p c).1 c).2) ++ (feed (processChar p c).1 bs).2)
    rw [List.append_assoc]
    exact k1 _ (k2 _ this)

/-- In a chain, every element is related to the one before it. -/
theorem chain_getElem_prev {α : Type} (R : α → α → Prop) (l : List α) :
    ∀ (x : α), List.Chain R x l → ∀ (i : Nat) (y : α), l[i]? = some y →
      ∃ z, (x :: l)[i]? = some z ∧ R z y := by
  induction l with
  | nil => intro x _ i y h; simp at h
  | cons b l ih =>
    intro x hc i y h
    rw [List.chain_cons] at hc
    cases i with
    | zero =>
      simp at h
      subst h
      exact ⟨x, by simp, hc.1⟩
    | succ i =>
      simp only [List.getElem?_cons_succ] at h ⊢
      exact ih b hc.2 i y h

end ParserBasics

/-- C6: a freshly constructed parser fed `55 55 55 55 10 00 02 00 AA 00` makes
exactly these calls: one frame sync, then the write of value `0x00AA` to address
`0x0010` (to the sketch callback and to the listeners); it ends in
`ADDRESS_LOW`. The uninitialised fields do not matter. -/
theorem frame_scenario (address0 count0 data0 : Nat) :
    (feed (new address0 count0 data0)
        [0x55, 0x55, 0x55, 0x55, 0x10, 0x00, 0x02, 0x00, 0xAA, 0x00]).2
      = [Call.handleDcsBiosFrameSync, Call.onDcsBiosWrite 0x0010 0x00AA,
         Call.handleDcsBiosWrite 0x0010 0x00AA]
    ∧ (feed (new address0 count0 data0)
        [0x55, 0x55, 0x55, 0x55, 0x10, 0x00, 0x02, 0x00, 0xAA, 0x00]).1.state
      = DCSBIOS_STATE_ADDRESS_LOW := by
  have h1 : feed (new address0 count0 data0) [0x55, 0x55, 0x55, 0x55]
      = (⟨1, address0, count0, data0, 0⟩, [Call.handleDcsBiosFrameSync]) := by
    simp [feed, new, processChar, switchState_wait, syncCheck_count, syncCheck_fire,
      DCSBIOS_STATE_WAIT_FOR_SYNC]
  have h2 : feed ⟨1, address0, count0, data0, 0⟩ [0x10, 0x00, 0x02, 0x00, 0xAA]
      = (⟨6, 0x10, 1, 0xAA, 0⟩, []) := by
    simp [feed, processChar, switchState_address_low, switchState_address_high,
      switchState_count_low, switchState_count_high, switchState_data_low, syncCheck_other]
  have h3 : feed ⟨6, 0x10, 1, 0xAA, 0⟩ [0x00]
      = (⟨1, 0x12, 0, 0xAA, 0⟩, [Call.onDcsBiosWrite 0x10 0xAA, Call.handleDcsBiosWrite 0x10 0xAA]) := by
    decide
  have h : feed (new address0 count0 data0)
        [0x55, 0x55, 0x55, 0x55, 0x10, 0x00, 0x02, 0x00, 0xAA, 0x00]
      = (⟨1, 0x12, 0, 0xAA, 0⟩, [Call.handleDcsBiosFrameSync, Call.onDcsBiosWrite 0x10 0xAA,
          Call.handleDcsBiosWrite 0x10 0xAA]) := by
    have e : [0x55, 0x55, 0x55, 0x55, 0x10, 0x00, 0x02, 0x00, 0xAA, 0x00]
        = [0x55, 0x55, 0x55, 0x55] ++ ([0x10, 0x00, 0x02, 0x00, 0xAA] ++ [0x00]) := rfl
    rw [e, feed_append, h1, feed_append, h2, h3]
    rfl
  rw [h]
  exact ⟨rfl, rfl⟩

/-- C3: with the sync counter at 3, `processChar(0x55)` ends in `ADDRESS_LOW`
with the counter at 0 and makes exactly one frame-sync call, which is the last
call it makes (so after any write of the same call); with any other counter in
0..3 and byte, the call makes no frame-sync call. -/
theorem sync_fires_on_fourth (p : ProtocolParser) (c : Nat) :
    (p.sync_byte_count = 3 →
      (processChar p 0x55).1.state = DCSBIOS_STATE_ADDRESS_LOW
      ∧ (processChar p 0x55).1.sync_byte_count = 0
      ∧ (processChar p 0x55).2.count Call.handleDcsBiosFrameSync = 1
      ∧ (processChar p 0x55).2.getLast? = some Call.handleDcsBiosFrameSync)
    ∧ (p.sync_byte_count ≤ 3 → ¬ (p.sync_byte_count = 3 ∧ c = 0x55) →
      Call.handleDcsBiosFrameSync ∉ (processChar p c).2) := by
  refine ⟨fun h3 => ?_, fun hle hne => ?_⟩
  · have hs := switchState_sync_byte_count p 0x55
    have hn := switchState_no_sync p 0x55
    simp only [processChar, syncCheck, hs, h3]
    simp [List.count_eq_zero_of_not_mem hn]
  · have hs := switchState_sync_byte_count p c
    have hn := switchState_no_sync p c
    simp only [processChar, syncCheck, hs]
    by_cases hc : c = 0x55
    · have : p.sync_byte_count ≠ 3 := fun h => hne ⟨h, hc⟩
      have h4 : (p.sync_byte_count + 1) % 256 ≠ 4 := by omega
      simp [hc, h4]
      simpa [hc] using hn
    · simp [hc, hn]

theorem sync_fires_on_fourth_witness :
    ((processChar (ProtocolParser.mk 6 0x10 1 0xAA 3) 0x55).1.state = DCSBIOS_STATE_ADDRESS_LOW
      ∧ (processChar (ProtocolParser.mk 6 0x10 1 0xAA 3) 0x55).1.sync_byte_count = 0
      ∧ (processChar (ProtocolParser.mk 6 0x10 1 0xAA 3) 0x55).2.count
          Call.handleDcsBiosFrameSync = 1
      ∧ (processChar (ProtocolParser.mk 6 0x10 1 0xAA 3) 0x55).2.getLast?
          = some Call.handleDcsBiosFrameSync)
    ∧ Call.handleDcsBiosFrameSync ∉ (processChar (ProtocolParser.mk 6 0x10 1 0xAA 3) 0x54).2 :=
  ⟨(sync_fires_on_fourth (ProtocolParser.mk 6 0x10 1 0xAA 3) 0x54).1 rfl,
   (sync_fires_on_fourth (ProtocolParser.mk 6 0x10 1 0xAA 3) 0x54).2 (by decide) (by decide)⟩

/-- C4: from sync counter 0, a run of `n` bytes `0x55` dispatches exactly
`n / 4` frame syncs; the byte number `n + 1` of the run dispatches one exactly
when `n + 1` is a multiple of 4 and none otherwise, and leaves the counter at
`(n + 1) % 4`, so at 0 right after each firing. -/
theorem sync_every_fourth (p : ProtocolParser) (h0 : p.sync_byte_count = 0) (n : Nat) :
    (feed p (List.replicate n 0x55)).2.count Call.handleDcsBiosFrameSync = n / 4
    ∧ (processChar (feed p (List.replicate n 0x55)).1 0x55).2.count Call.handleDcsBiosFrameSync
        = (if (n + 1) % 4 = 0 then 1 else 0)
    ∧ (processChar (feed p (List.replicate n 0x55)).1 0x55).1.sync_byte_count = (n + 1) % 4 := by
  obtain ⟨h1, h2⟩ := feed_sync_run p h0 n
  have hlt : (feed p (List.replicate n 0x55)).1.sync_byte_count < 4 := by omega
  obtain ⟨k1, k2⟩ := processChar_sync_byte _ hlt
  refine ⟨h2, ?_, ?_⟩
  · rw [k2, h1]
    split_ifs <;> omega
  · rw [k1, h1]
    omega

theorem sync_every_fourth_witness :
    (feed (ProtocolParser.mk 6 0x10 4 0xAA 0) (List.replicate 7 0x55)).2.count
        Call.handleDcsBiosFrameSync = 7 / 4
    ∧ (processChar (feed (ProtocolParser.mk 6 0x10 4 0xAA 0) (List.replicate 7 0x55)).1 0x55).2.count
        Call.handleDcsBiosFrameSync = (if (7 + 1) % 4 = 0 then 1 else 0)
    ∧ (processChar (feed (ProtocolParser.mk 6 0x10 4 0xAA 0) (List.replicate 7 0x55)).1
        0x55).1.sync_byte_count = (7 + 1) % 4 :=
  sync_every_fourth (ProtocolParser.mk 6 0x10 4 0xAA 0) rfl 7

/-- C1 as stated fails. (1) A sync run of 5 bytes: the fifth `0x55` is read
as the address low byte, so the frame `10 00 02 00 AA 00` yields a write of
`0xAA00` to `0x1055` and the parser ends in `DATA_HIGH`. (2) Count 0 with no
value: the parser ends in `DATA_LOW`, not `ADDRESS_LOW`. (3) Count 4 with the
values `0x5555 0x5555`: a frame sync is dispatched after the second write. -/
theorem valid_frame_counterexample :
    feed (new 0 0 0) (List.replicate 5 0x55 ++ groupBytes 0x0010 2 [0x00AA])
      = (⟨DCSBIOS_STATE_DATA_HIGH, 0x1057, 0x01FD, 0, 0⟩,
         [Call.handleDcsBiosFrameSync, Call.onDcsBiosWrite 0x1055 0xAA00,
          Call.handleDcsBiosWrite 0x1055 0xAA00])
    ∧ feed (new 0 0 0) (List.replicate 4 0x55 ++ groupBytes 0x0010 0 [])
      = (⟨DCSBIOS_STATE_DATA_LOW, 0x0010, 0, 0, 0⟩, [Call.handleDcsBiosFrameSync])
    ∧ feed (new 0 0 0) (List.replicate 4 0x55 ++ groupBytes 0x0010 4 [0x5555, 0x5555])
      = (⟨DCSBIOS_STATE_ADDRESS_LOW, 0x0014, 0, 0x5555, 0⟩,
         [Call.handleDcsBiosFrameSync, Call.onDcsBiosWrite 0x0010 0x5555,
          Call.handleDcsBiosWrite 0x0010 0x5555, Call.onDcsBiosWrite 0x0012 0x5555,
          Call.handleDcsBiosWrite 0x0012 0x5555, Call.handleDcsBiosFrameSync]) := by
  decide

/-- C1, amended: a fresh parser is fed a sync run of `k` bytes `0x55` with `k`
a positive multiple of 4, then a group with address `A ≠ 0x5555`, an even count
`N` with `2 ≤ N ≤ 65534` and `N / 2` 16-bit values, low bytes first, where the
group's bytes contain no four `0x55` in a row. Then the calls are the `k / 4`
frame syncs of the sync run followed by exactly `N / 2` write events, event `i`
with address `(A + 2 * i) mod 65536` and value number `i`; no frame sync
follows the sync run; the parser ends in `ADDRESS_LOW`. -/
theorem valid_frame (address0 count0 data0 k A N : Nat) (vals : List Nat)
    (hk4 : 4 ≤ k) (hk : k % 4 = 0) (hA : A < 65536) (hA5 : A ≠ 0x5555)
    (hN2 : 2 ≤ N) (hNe : N % 2 = 0) (hN : N < 65536) (hlen : vals.length = N / 2)
    (hv : ∀ v ∈ vals, v < 65536)
    (hq : ¬ (List.replicate 4 0x55 <:+: groupBytes A N vals)) :
    (feed (new address0 count0 data0) (List.replicate k 0x55 ++ groupBytes A N vals)).2
      = List.replicate (k / 4) Call.handleDcsBiosFrameSync ++ writeCallsFrom A 0 vals
    ∧ (feed (new address0 count0 data0) (List.replicate k 0x55)).2
      = List.replicate (k / 4) Call.handleDcsBiosFrameSync
    ∧ (writeCallsFrom A 0 vals).length = 2 * (N / 2)
    ∧ Call.handleDcsBiosFrameSync ∉ writeCallsFrom A 0 vals
    ∧ (feed (new address0 count0 data0) (List.replicate k 0x55 ++ groupBytes A N vals)).1.state
      = DCSBIOS_STATE_ADDRESS_LOW := by
  obtain ⟨m, rfl⟩ : ∃ m, k = 4 * (m + 1) := ⟨k / 4 - 1, by omega⟩
  have hdiv : 4 * (m + 1) / 4 = m + 1 := Nat.mul_div_cancel_left _ (by norm_num)
  obtain ⟨a', hrun⟩ := feed_sync_run_new address0 count0 data0 m
  cases vals with
  | nil => simp at hlen; omega
  | cons v vs =>
    simp only [List.length_cons] at hlen
    have hNv : N = 2 * (vs.length + 1) := by omega
    have hquiet : quiet 0 (groupBytes A N (v :: vs)) :=
      quiet_of_no_run _ 0 (by omega) (by simpa using hq)
    have hg : groupBytes A N (v :: vs)
        = A % 256 :: A / 256 :: N % 256 :: N / 256 :: dataBytes (v :: vs) := rfl
    rw [hg] at hquiet
    obtain ⟨s', hs', hq', -, hf⟩ := feed_header a' count0 data0 0 (A % 256) (A / 256) (N % 256)
      (N / 256) (dataBytes (v :: vs)) (by omega) (by omega) (by omega) (by omega) (by omega)
      (by omega) hquiet
    have eA : A / 256 * 256 + A % 256 = (A + 2 * 0) % 65536 := by omega
    have eN : N / 256 * 256 + N % 256 = 2 * (vs.length + 1) := by omega
    rw [eA, eN] at hf
    obtain ⟨h1, h2⟩ := feed_values A vs v 0 data0 s' hs' hv (by omega) hq'
    have hlenw : ∀ (l : List Nat) (i : Nat), (writeCallsFrom A i l).length = 2 * l.length
        ∧ Call.handleDcsBiosFrameSync ∉ writeCallsFrom A i l := by
      intro l
      induction l with
      | nil => intro i; simp [writeCallsFrom]
      | cons x xs ih =>
        intro i
        rw [writeCallsFrom_cons]
        obtain ⟨i1, i2⟩ := ih (i + 1)
        refine ⟨by simp [i1]; omega, by simp [i2]⟩
    rw [feed_append, hrun, hdiv, hg, hf, h1, h2]
    refine ⟨rfl, rfl, ?_, (hlenw _ 0).2, rfl⟩
    rw [(hlenw _ 0).1]
    simp only [List.length_cons]
    omega

theorem valid_frame_witness :
    (feed (new 7 8 9) (List.replicate 8 0x55 ++ groupBytes 0xFFFE 4 [1, 0x5502])).2
      = List.replicate (8 / 4) Call.handleDcsBiosFrameSync ++ writeCallsFrom 0xFFFE 0 [1, 0x5502]
    ∧ (feed (new 7 8 9) (List.replicate 8 0x55)).2
      = List.replicate (8 / 4) Call.handleDcsBiosFrameSync
    ∧ (writeCallsFrom 0xFFFE 0 [1, 0x5502]).length = 2 * (4 / 2)
    ∧ Call.handleDcsBiosFrameSync ∉ writeCallsFrom 0xFFFE 0 [1, 0x5502]
    ∧ (feed (new 7 8 9) (List.replicate 8 0x55 ++ groupBytes 0xFFFE 4 [1, 0x5502])).1.state
      = DCSBIOS_STATE_ADDRESS_LOW :=
  valid_frame 7 8 9 8 0xFFFE 4 [1, 0x5502] (by decide) (by decide) (by decide) (by decide)
    (by decide) (by decide) (by decide) (by decide) (by decide) (by decide)

/-- C2 as stated fails. (1) A fresh parser fed a sync run and then
`55 55 02 00` does not end in `DATA_LOW` with count 2: the address `0x5555` is
the sentinel and the parser is back in `WAIT_FOR_SYNC`. (2) From a parser whose
counter is already 2, four bytes `0x55` fire on the second byte, and the
following `10 00 02 00` is not read as a header. (3) A fresh parser fed five
bytes `0x55`: the last four are all `0x55`, yet the following `10 00 02 00` is
read with the fifth `0x55` as the address low byte. -/
theorem fresh_group_counterexample :
    (feed (new 0 0 0) ([0x55, 0x55, 0x55, 0x55] ++ [0x55, 0x55, 0x02, 0x00])).1.state
        = DCSBIOS_STATE_WAIT_FOR_SYNC
    ∧ (feed ⟨DCSBIOS_STATE_ADDRESS_LOW, 0, 0, 0, 2⟩
        ([0x55, 0x55, 0x55, 0x55] ++ [0x10, 0x00, 0x02, 0x00])).1
        = ⟨DCSBIOS_STATE_WAIT_FOR_SYNC, 0x5555, 0, 0, 0⟩
    ∧ (feed (new 0 0 0) (0x55 :: [0x55, 0x55, 0x55, 0x55] ++ [0x10, 0x00, 0x02, 0x00])).1
        = ⟨DCSBIOS_STATE_DATA_HIGH, 0x1055, 0x01FF, 0, 0⟩ := by
  decide

/-- C2, amended: from any parser whose sync counter is 0 (whatever its parse
state and pending address, count and data), four bytes `0x55` dispatch exactly
one frame sync, on the fourth byte, and leave `ADDRESS_LOW` with counter 0. The
next four bytes `b0 b1 b2 b3`, unless `b0 = b1 = 0x55`, are then read as a group
header without any call: address `b0 | b1 << 8`, count `b2 | b3 << 8`, state
`DATA_LOW`. When `b0 = b1 = 0x55` the address is the sentinel `0x5555` and the
parser is in `WAIT_FOR_SYNC` after `b1`. -/
theorem fresh_group_after_sync (p : ProtocolParser) (h0 : p.sync_byte_count = 0)
    (b0 b1 b2 b3 : Nat) (hb0 : b0 < 256) (hb1 : b1 < 256) (hb2 : b2 < 256) (hb3 : b3 < 256) :
    (feed p [0x55, 0x55, 0x55]).2.count Call.handleDcsBiosFrameSync = 0
    ∧ (feed p [0x55, 0x55, 0x55, 0x55]).2.count Call.handleDcsBiosFrameSync = 1
    ∧ (feed p [0x55, 0x55, 0x55, 0x55]).1.state = DCSBIOS_STATE_ADDRESS_LOW
    ∧ (feed p [0x55, 0x55, 0x55, 0x55]).1.sync_byte_count = 0
    ∧ (¬ (b0 = 0x55 ∧ b1 = 0x55) →
        (feed (feed p [0x55, 0x55, 0x55, 0x55]).1 [b0, b1, b2, b3]).1.state
            = DCSBIOS_STATE_DATA_LOW
        ∧ (feed (feed p [0x55, 0x55, 0x55, 0x55]).1 [b0, b1, b2, b3]).1.address
            = b0 ||| b1 <<< 8
        ∧ (feed (feed p [0x55, 0x55, 0x55, 0x55]).1 [b0, b1, b2, b3]).1.count
            = b2 ||| b3 <<< 8
        ∧ (feed (feed p [0x55, 0x55, 0x55, 0x55]).1 [b0, b1, b2, b3]).2 = [])
    ∧ (b0 = 0x55 ∧ b1 = 0x55 →
        (feed (feed p [0x55, 0x55, 0x55, 0x55]).1 [b0, b1]).1.state
            = DCSBIOS_STATE_WAIT_FOR_SYNC
        ∧ (feed (feed p [0x55, 0x55, 0x55, 0x55]).1 [b0, b1]).1.address = 0x5555) := by
  have r3 := feed_sync_run p h0 3
  have r4 := feed_sync_run p h0 4
  have e3 : List.replicate 3 0x55 = [0x55, 0x55, 0x55] := rfl
  have e4 : List.replicate 4 0x55 = [0x55, 0x55, 0x55, 0x55] := rfl
  rw [e3] at r3
  rw [e4] at r4
  have hst : (feed p [0x55, 0x55, 0x55, 0x55]).1.state = DCSBIOS_STATE_ADDRESS_LOW := by
    have e : [0x55, 0x55, 0x55, 0x55] = [0x55, 0x55, 0x55] ++ [0x55] := rfl
    have r31 : (feed p [0x55, 0x55, 0x55]).1.sync_byte_count = 3 := r3.1
    rw [e, feed_append]
    generalize (feed p [0x55, 0x55, 0x55]).1 = q at r31
    exact processChar_sync_state q r31
  refine ⟨r3.2, r4.2, hst, r4.1, ?_, ?_⟩
  · intro hne
    generalize (feed p [0x55, 0x55, 0x55, 0x55]).1 = q at hst r4
    obtain ⟨st, a, n, d, s⟩ := q
    obtain ⟨r41, -⟩ := r4
    simp only [DCSBIOS_STATE_ADDRESS_LOW] at hst r41
    subst hst
    subst r41
    have hq : quiet 0 [b0, b1, b2, b3] := by
      simp only [quiet, syncNext]
      split_ifs <;> simp_all
    obtain ⟨s', -, -, -, hf⟩ := feed_header a n d 0 b0 b1 b2 b3 [] (by omega) hb0 hb1 hb2 hb3 hne hq
    rw [hf, feed_nil]
    refine ⟨rfl, ?_, ?_, rfl⟩
    · show b1 * 256 + b0 = b0 ||| b1 <<< 8
      rw [Nat.lor_comm, shl8_lor _ _ hb0]
    · show b3 * 256 + b2 = b2 ||| b3 <<< 8
      rw [Nat.lor_comm, shl8_lor _ _ hb2]
  · rintro ⟨rfl, rfl⟩
    generalize (feed p [0x55, 0x55, 0x55, 0x55]).1 = q at hst r4
    obtain ⟨st, a, n, d, s⟩ := q
    obtain ⟨r41, -⟩ := r4
    simp only [DCSBIOS_STATE_ADDRESS_LOW] at hst r41
    subst hst
    subst r41
    simp [feed, processChar, switchState_address_low, switchState_address_high, syncCheck_count,
      DCSBIOS_STATE_WAIT_FOR_SYNC]

theorem fresh_group_after_sync_witness :
    (feed (ProtocolParser.mk 6 0x1234 7 0xAA 0) [0x55, 0x55, 0x55]).2.count
        Call.handleDcsBiosFrameSync = 0
    ∧ (feed (ProtocolParser.mk 6 0x1234 7 0xAA 0) [0x55, 0x55, 0x55, 0x55]).2.count
        Call.handleDcsBiosFrameSync = 1
    ∧ (feed (ProtocolParser.mk 6 0x1234 7 0xAA 0) [0x55, 0x55, 0x55, 0x55]).1.state
        = DCSBIOS_STATE_ADDRESS_LOW
    ∧ (feed (ProtocolParser.mk 6 0x1234 7 0xAA 0) [0x55, 0x55, 0x55, 0x55]).1.sync_byte_count = 0
    ∧ (feed (feed (ProtocolParser.mk 6 0x1234 7 0xAA 0) [0x55, 0x55, 0x55, 0x55]).1
          [0x10, 0x55, 0x55, 0x55]).1.state = DCSBIOS_STATE_DATA_LOW
    ∧ (feed (feed (ProtocolParser.mk 6 0x1234 7 0xAA 0) [0x55, 0x55, 0x55, 0x55]).1
          [0x10, 0x55, 0x55, 0x55]).1.address = 0x10 ||| 0x55 <<< 8
    ∧ (feed (feed (ProtocolParser.mk 6 0x1234 7 0xAA 0) [0x55, 0x55, 0x55, 0x55]).1
          [0x10, 0x55, 0x55, 0x55]).1.count = 0x55 ||| 0x55 <<< 8
    ∧ (feed (feed (ProtocolParser.mk 6 0x1234 7 0xAA 0) [0x55, 0x55, 0x55, 0x55]).1
          [0x10, 0x55, 0x55, 0x55]).2 = [] :=
  have h := fresh_group_after_sync (ProtocolParser.mk 6 0x1234 7 0xAA 0) rfl 0x10 0x55 0x55 0x55
    (by decide) (by decide) (by decide) (by decide)
  ⟨h.1, h.2.1, h.2.2.1, h.2.2.2.1, h.2.2.2.2.1 (by decide)⟩

/-- C5 as stated fails: a group with header address `0x5553` and count 4
delivers its second value with address `0x5555`, to `onDcsBiosWrite` and to the
listeners. -/
theorem sentinel_address_counterexample :
    (feed (new 0 0 0)
        [0x55, 0x55, 0x55, 0x55, 0x53, 0x55, 0x04, 0x00, 0x01, 0x00, 0x02, 0x00]).2
      = [Call.handleDcsBiosFrameSync,
         Call.onDcsBiosWrite 0x5553 1, Call.handleDcsBiosWrite 0x5553 1,
         Call.onDcsBiosWrite 0x5555 2, Call.handleDcsBiosWrite 0x5555 2] := by
  decide

/-- C5, amended: in the calls a fresh parser makes on any byte sequence, a write
with address `0x5555` is never the first write after a group header: every
`onDcsBiosWrite(0x5555, v)` comes directly after the listeners' write of the
previous value to address `0x5553`, and every listeners' write directly follows
the `onDcsBiosWrite` call with the same address and value. -/
theorem sentinel_write_only_after_increment (address0 count0 data0 : Nat) (bs : List Nat)
    (i : Nat) :
    (∀ v, (feed (new address0 count0 data0) bs).2[i]? = some (Call.onDcsBiosWrite 0x5555 v) →
      ∃ j v', i = j + 1
        ∧ (feed (new address0 count0 data0) bs).2[j]? = some (Call.handleDcsBiosWrite 0x5553 v'))
    ∧ (∀ a v, (feed (new address0 count0 data0) bs).2[i]? = some (Call.handleDcsBiosWrite a v) →
      ∃ j, i = j + 1
        ∧ (feed (new address0 count0 data0) bs).2[j]? = some (Call.onDcsBiosWrite a v)) := by
  have hinv : sentinelInv (new address0 count0 data0) Call.handleDcsBiosFrameSync := by
    simp [sentinelInv, new, DCSBIOS_STATE_WAIT_FOR_SYNC]
  have hch := feed_sentinelInv bs _ _ hinv
  constructor
  · intro v hv
    obtain ⟨z, hz, hr⟩ := chain_getElem_prev followsRule _ _ hch i _ hv
    obtain ⟨v', hv'⟩ := hr.1 v rfl
    subst hv'
    cases i with
    | zero => simp at hz
    | succ j => exact ⟨j, v', rfl, by simpa using hz⟩
  · intro a v hv
    obtain ⟨z, hz, hr⟩ := chain_getElem_prev followsRule _ _ hch i _ hv
    have hz' := hr.2 a v rfl
    subst hz'
    cases i with
    | zero => simp at hz
    | succ j => exact ⟨j, rfl, by simpa using hz⟩

theorem sentinel_write_only_after_increment_witness :
    (feed (new 0 0 0)
        [0x55, 0x55, 0x55, 0x55, 0x53, 0x55, 0x04, 0x00, 0x01, 0x00, 0x02, 0x00]).2[3]?
      = some (Call.onDcsBiosWrite 0x5555 2)
    ∧ ∃ j v', 3 = j + 1
        ∧ (feed (new 0 0 0)
            [0x55, 0x55, 0x55, 0x55, 0x53, 0x55, 0x04, 0x00, 0x01, 0x00, 0x02, 0x00]).2[j]?
          = some (Call.handleDcsBiosWrite 0x5553 v') :=
  ⟨by decide,
   (sentinel_write_only_after_increment 0 0 0
      [0x55, 0x55, 0x55, 0x55, 0x53, 0x55, 0x04, 0x00, 0x01, 0x00, 0x02, 0x00] 3).1 2
      (by decide)⟩

/-! ## Theorems: registries -/

section Registries

theorem linked_congr (next next' : Nat → Option Nat) (l : List Nat) :
    ∀ el, (∀ x ∈ l, next x = next' x) → linked next el l → linked next' el l := by
  induction l with
  | nil => intro el _ h; exact h
  | cons x xs ih =>
    intro el hag h
    obtain ⟨h1, h2⟩ := h
    refine ⟨h1, ?_⟩
    rw [← hag x (by simp)]
    exact ih _ (fun y hy => hag y (List.mem_cons_of_mem _ hy)) h2

/-- The loop over a list that ends at `NULL`: with fuel for every object, the
body runs once per object, in list order. -/
theorem whileLinked_linked {β : Type} (next : Nat → Option Nat) (body : Nat → β)
    (l : List Nat) :
    ∀ el fuel, linked next el l → l.length ≤ fuel →
      whileLinked next body fuel el = some (l.map body) := by
  induction l with
  | nil =>
    intro el fuel h _
    have : el = none := h
    subst this
    cases fuel <;> rfl
  | cons x xs ih =>
    intro el fuel h hf
    obtain ⟨h1, h2⟩ := h
    subst h1
    cases fuel with
    | zero => simp at hf
    | succ fuel =>
      have := ih (next x) fuel h2 (by simpa using hf)
      simp [whileLinked, this]

theorem listeners_linked_construct (ls : List Nat) :
    ∀ (r : ExportStreamListener) (chain : List Nat),
      linked r.nextExportStreamListener r.firstExportStreamListener chain →
      (∀ x ∈ ls, x ∉ chain) → ls.Nodup →
      linked (ls.foldl ExportStreamListener.construct r).nextExportStreamListener
        (ls.foldl ExportStreamListener.construct r).firstExportStreamListener
        (ls.reverse ++ chain) := by
  induction ls with
  | nil => intro r chain h _ _; simpa using h
  | cons x xs ih =>
    intro r chain h hnot hnd
    rw [List.nodup_cons] at hnd
    have hx : x ∉ chain := hnot x (by simp)
    have hstep : linked (ExportStreamListener.construct r x).nextExportStreamListener
        (ExportStreamListener.construct r x).firstExportStreamListener (x :: chain) := by
      refine ⟨rfl, ?_⟩
      have e : (ExportStreamListener.construct r x).nextExportStreamListener x
          = r.firstExportStreamListener := by simp [ExportStreamListener.construct]
      rw [e]
      refine linked_congr r.nextExportStreamListener _ chain _ (fun y hy => ?_) h
      have : y ≠ x := fun e => hx (e ▸ hy)
      simp [ExportStreamListener.construct, this]
    have := ih (ExportStreamListener.construct r x) (x :: chain) hstep
      (fun y hy hmem => by
        rcases List.mem_cons.mp hmem with e | e
        · exact hnd.1 (e ▸ hy)
        · exact hnot y (List.mem_cons_of_mem _ hy) e)
      hnd.2
    simpa using this

theorem pollingInputs_linked_construct (ls : List Nat) :
    ∀ (r : PollingInput) (chain : List Nat),
      linked r.nextPollingInput r.firstPollingInput chain →
      (∀ x ∈ ls, x ∉ chain) → ls.Nodup →
      linked (ls.foldl PollingInput.construct r).nextPollingInput
        (ls.foldl PollingInput.construct r).firstPollingInput (ls.reverse ++ chain) := by
  induction ls with
  | nil => intro r chain h _ _; simpa using h
  | cons x xs ih =>
    intro r chain h hnot hnd
    rw [List.nodup_cons] at hnd
    have hx : x ∉ chain := hnot x (by simp)
    have hstep : linked (PollingInput.construct r x).nextPollingInput
        (PollingInput.construct r x).firstPollingInput (x :: chain) := by
      refine ⟨rfl, ?_⟩
      have e : (PollingInput.construct r x).nextPollingInput x = r.firstPollingInput := by
        simp [PollingInput.construct]
      rw [e]
      refine linked_congr r.nextPollingInput _ chain _ (fun y hy => ?_) h
      have : y ≠ x := fun e => hx (e ▸ hy)
      simp [PollingInput.construct, this]
    have := ih (PollingInput.construct r x) (x :: chain) hstep
      (fun y hy hmem => by
        rcases List.mem_cons.mp hmem with e | e
        · exact hnd.1 (e ▸ hy)
        · exact hnot y (List.mem_cons_of_mem _ hy) e)
      hnd.2
    simpa using this

end Registries

/-- C7: after the listeners `ls` (distinct objects) were constructed in that
order from the empty registry, one `handleDcsBiosWrite(address, value)` calls
`onDcsBiosWrite(address, value)` exactly once on each, last constructed first,
and `handleDcsBiosFrameSync()` calls `onDcsBiosFrameSync()` likewise; both
terminate (any fuel of at least the number of listeners gives the result) and
leave the registry as it was. -/
theorem listeners_dispatch (next0 : Nat → Option Nat) (ls : List Nat) (hnd : ls.Nodup)
    (address value fuel : Nat) (hfuel : ls.length ≤ fuel) :
    ExportStreamListener.handleDcsBiosWrite
        (ls.foldl ExportStreamListener.construct (ExportStreamListener.start next0))
        address value fuel
      = some (ls.foldl ExportStreamListener.construct (ExportStreamListener.start next0),
              ls.reverse.map (fun el => ListenerCall.onDcsBiosWrite el address value))
    ∧ ExportStreamListener.handleDcsBiosFrameSync
        (ls.foldl ExportStreamListener.construct (ExportStreamListener.start next0)) fuel
      = some (ls.foldl ExportStreamListener.construct (ExportStreamListener.start next0),
              ls.reverse.map ListenerCall.onDcsBiosFrameSync) := by
  have hl := listeners_linked_construct ls (ExportStreamListener.start next0) []
    rfl (fun _ _ => by simp) hnd
  rw [List.append_nil] at hl
  have hlen : ls.reverse.length ≤ fuel := by simpa using hfuel
  constructor
  · unfold ExportStreamListener.handleDcsBiosWrite
    rw [whileLinked_linked _ _ _ _ fuel hl hlen]
    rfl
  · unfold ExportStreamListener.handleDcsBiosFrameSync
    rw [whileLinked_linked _ _ _ _ fuel hl hlen]
    rfl

theorem listeners_dispatch_witness :
    ExportStreamListener.handleDcsBiosWrite
        ([10, 20, 30].foldl ExportStreamListener.construct
          (ExportStreamListener.start (fun _ => some 10)))
        0x1008 0x00FF 3
      = some ([10, 20, 30].foldl ExportStreamListener.construct
                (ExportStreamListener.start (fun _ => some 10)),
              [10, 20, 30].reverse.map (fun el => ListenerCall.onDcsBiosWrite el 0x1008 0x00FF))
    ∧ ExportStreamListener.handleDcsBiosFrameSync
        ([10, 20, 30].foldl ExportStreamListener.construct
          (ExportStreamListener.start (fun _ => some 10))) 3
      = some ([10, 20, 30].foldl ExportStreamListener.construct
                (ExportStreamListener.start (fun _ => some 10)),
              [10, 20, 30].reverse.map ListenerCall.onDcsBiosFrameSync) :=
  listeners_dispatch (fun _ => some 10) [10, 20, 30] (by decide) 0x1008 0x00FF 3 (by decide)

/-- C8: after the polling inputs `ps` (distinct objects) were constructed in
that order from the empty registry, one `pollInputs()` calls `pollInput()`
exactly once on each, last constructed first; it terminates (any fuel of at
least the number of inputs gives the result) and leaves the registry as it
was. -/
theorem pollInputs_dispatch (next0 : Nat → Option Nat) (ps : List Nat) (hnd : ps.Nodup)
    (fuel : Nat) (hfuel : ps.length ≤ fuel) :
    PollingInput.pollInputs (ps.foldl PollingInput.construct (PollingInput.start next0)) fuel
      = some (ps.foldl PollingInput.construct (PollingInput.start next0),
              ps.reverse.map PollCall.pollInput) := by
  have hl := pollingInputs_linked_construct ps (PollingInput.start next0) []
    rfl (fun _ _ => by simp) hnd
  rw [List.append_nil] at hl
  have hlen : ps.reverse.length ≤ fuel := by simpa using hfuel
  unfold PollingInput.pollInputs
  rw [whileLinked_linked _ _ _ _ fuel hl hlen]
  rfl

theorem pollInputs_dispatch_witness :
    PollingInput.pollInputs
        ([4, 5, 6, 7].foldl PollingInput.construct (PollingInput.start (fun _ => some 4))) 4
      = some ([4, 5, 6, 7].foldl PollingInput.construct (PollingInput.start (fun _ => some 4)),
              [4, 5, 6, 7].reverse.map PollCall.pollInput) :=
  pollInputs_dispatch (fun _ => some 4) [4, 5, 6, 7] (by decide) 4 (by decide)

/-! ## Theorems: input adapters -/

/-- C9 as stated fails for `ActionButton`: with `lastState_` LOW and the pin
reading HIGH the state differs, yet `pollInput` sends nothing. -/
theorem pollInput_change_counterexample :
    (ActionButton.pollInput ⟨"BTN", "TOGGLE", 2, LOW⟩ (fun _ => HIGH)).2 = []
    ∧ (fun _ : Nat => HIGH) 2 ≠ (ActionButton.mk "BTN" "TOGGLE" 2 LOW).lastState_ := by
  decide

/-- C9, amended: for `Switch2Pos`, `Switch3Pos`, `SwitchMultiPos`,
`SwitchMultiPosPot` and `Potentiometer`, with `s` the state `pollInput` samples
(for `Switch2Pos` the level after the `reverse_` negation): no message when `s`
equals `lastState_`, else exactly one message whose argument encodes `s` ("0"
for HIGH and "1" otherwise for `Switch2Pos`, the decimal digits of `s` for the
others). `ActionButton` sends exactly one message `(msg_, arg_)` when
`lastState_` is HIGH and the reading is LOW, and none otherwise. In every case
`lastState_` equals `s` afterwards. -/
theorem pollInput_on_change :
    (∀ (sw : Switch2Pos) (digitalRead : Nat → Nat),
      (sw.pollInput digitalRead).2
          = (if sw.sample digitalRead = sw.lastState_ then []
             else [⟨sw.msg_, if sw.sample digitalRead = HIGH then "0" else "1"⟩])
      ∧ (sw.pollInput digitalRead).1.lastState_ = sw.sample digitalRead)
    ∧ (∀ (sw : Switch3Pos) (digitalRead : Nat → Nat),
      (sw.pollInput digitalRead).2
          = (if sw.readState digitalRead = sw.lastState_ then []
             else [⟨sw.msg_, utoa (sw.readState digitalRead)⟩])
      ∧ (sw.pollInput digitalRead).1.lastState_ = sw.readState digitalRead)
    ∧ (∀ (sw : SwitchMultiPos) (digitalRead : Nat → Nat),
      (sw.pollInput digitalRead).2
          = (if sw.readState digitalRead = sw.lastState_ then []
             else [⟨sw.msg_, utoa (sw.readState digitalRead)⟩])
      ∧ (sw.pollInput digitalRead).1.lastState_ = sw.readState digitalRead)
    ∧ (∀ (sw : SwitchMultiPosPot) (analogRead : Nat → Int),
      (sw.pollInput analogRead).2
          = (if sw.readState analogRead = sw.lastState_ then []
             else [⟨sw.msg_, utoa (sw.readState analogRead)⟩])
      ∧ (sw.pollInput analogRead).1.lastState_ = sw.readState analogRead)
    ∧ (∀ (pot : Potentiometer) (analogRead : Nat → Int)
        (map : Int → Int → Int → Int → Int → Int),
      (pot.pollInput analogRead map).2
          = (if toUInt (map (analogRead pot.pin_) 0 1023 0 65535) = pot.lastState_ then []
             else [⟨pot.msg_, utoa (toUInt (map (analogRead pot.pin_) 0 1023 0 65535))⟩])
      ∧ (pot.pollInput analogRead map).1.lastState_
          = toUInt (map (analogRead pot.pin_) 0 1023 0 65535))
    ∧ (∀ (b : ActionButton) (digitalRead : Nat → Nat),
      (b.pollInput digitalRead).2
          = (if b.lastState_ = HIGH ∧ digitalRead b.pin_ = LOW then [⟨b.msg_, b.arg_⟩] else [])
      ∧ (b.pollInput digitalRead).1.lastState_ = digitalRead b.pin_) := by
  refine ⟨?_, ?_, ?_, ?_, ?_, ?_⟩
  · intro sw dr
    simp only [Switch2Pos.pollInput]
    refine ⟨?_, trivial⟩
    split_ifs <;> simp_all
  · intro sw dr
    have h012 : sw.readState dr = 0 ∨ sw.readState dr = 1 ∨ sw.readState dr = 2 := by
      unfold Switch3Pos.readState
      split_ifs <;> simp
    have u0 : utoa 0 = "0" := by decide
    have u1 : utoa 1 = "1" := by decide
    have u2 : utoa 2 = "2" := by decide
    simp only [Switch3Pos.pollInput]
    refine ⟨?_, trivial⟩
    rcases h012 with h | h | h <;> rw [h] <;> split_ifs <;> simp_all
  · intro sw dr
    simp only [SwitchMultiPos.pollInput]
    refine ⟨?_, trivial⟩
    split_ifs <;> simp_all
  · intro sw ar
    simp only [SwitchMultiPosPot.pollInput]
    refine ⟨?_, trivial⟩
    split_ifs <;> simp_all
  · intro pot ar map
    simp only [Potentiometer.pollInput]
    refine ⟨?_, trivial⟩
    split_ifs <;> simp_all
  · intro b dr
    simp only [ActionButton.pollInput, HIGH, LOW]
    refine ⟨?_, trivial⟩
    split_ifs with h1 h2
    · rfl
    · rfl
    · exfalso
      apply h1
      omega
    · rfl

/-- C10: a `RotaryEncoder` with `delta_ = 0` and `lastState_ = 3` polled four
times with the readings 2, 0, 1, 3: the first three calls send nothing, the
fourth sends exactly one message, with `incArg_`, and `delta_` is 0 again. -/
theorem rotary_four_steps (enc : RotaryEncoder) (r1 r2 r3 r4 : Nat → Nat)
    (hd : enc.delta_ = 0) (hl : enc.lastState_ = 3)
    (h1 : enc.readState r1 = 2) (h2 : enc.readState r2 = 0)
    (h3 : enc.readState r3 = 1) (h4 : enc.readState r4 = 3) :
    (enc.pollInput r1).2 = []
    ∧ ((enc.pollInput r1).1.pollInput r2).2 = []
    ∧ (((enc.pollInput r1).1.pollInput r2).1.pollInput r3).2 = []
    ∧ ((((enc.pollInput r1).1.pollInput r2).1.pollInput r3).1.pollInput r4).2
        = [⟨enc.msg_, enc.incArg_⟩]
    ∧ ((((enc.pollInput r1).1.pollInput r2).1.pollInput r3).1.pollInput r4).1.delta_ = 0 := by
  obtain ⟨msg, dec, inc, pA, pB, last, delta⟩ := enc
  simp only at hd hl
  subst hd
  subst hl
  simp only [RotaryEncoder.readState] at h1 h2 h3 h4
  simp only [RotaryEncoder.pollInput, RotaryEncoder.readState, RotaryEncoder.step, h1, h2, h3, h4]
  simp [toSChar]

theorem rotary_four_steps_witness :
    ((RotaryEncoder.mk "KNOB" "DEC" "INC" 2 3 3 0).pollInput
        (fun pin => if pin = 2 then 1 else 0)).2 = []
    ∧ (((RotaryEncoder.mk "KNOB" "DEC" "INC" 2 3 3 0).pollInput
        (fun pin => if pin = 2 then 1 else 0)).1.pollInput (fun _ => 0)).2 = []
    ∧ ((((RotaryEncoder.mk "KNOB" "DEC" "INC" 2 3 3 0).pollInput
        (fun pin => if pin = 2 then 1 else 0)).1.pollInput (fun _ => 0)).1.pollInput
        (fun pin => if pin = 3 then 1 else 0)).2 = []
    ∧ (((((RotaryEncoder.mk "KNOB" "DEC" "INC" 2 3 3 0).pollInput
        (fun pin => if pin = 2 then 1 else 0)).1.pollInput (fun _ => 0)).1.pollInput
        (fun pin => if pin = 3 then 1 else 0)).1.pollInput (fun _ => 1)).2
        = [⟨(RotaryEncoder.mk "KNOB" "DEC" "INC" 2 3 3 0).msg_,
            (RotaryEncoder.mk "KNOB" "DEC" "INC" 2 3 3 0).incArg_⟩]
    ∧ (((((RotaryEncoder.mk "KNOB" "DEC" "INC" 2 3 3 0).pollInput
        (fun pin => if pin = 2 then 1 else 0)).1.pollInput (fun _ => 0)).1.pollInput
        (fun pin => if pin = 3 then 1 else 0)).1.pollInput (fun _ => 1)).1.delta_ = 0 :=
  rotary_four_steps (RotaryEncoder.mk "KNOB" "DEC" "INC" 2 3 3 0)
    (fun pin => if pin = 2 then 1 else 0) (fun _ => 0) (fun pin => if pin = 3 then 1 else 0)
    (fun _ => 1) rfl rfl (by decide) (by decide) (by decide) (by decide)

/-! ## Theorems: the data loop of the parser -/

section ParserLoop

theorem lor_shl8 (lo hi : Nat) (hlo : lo < 256) : lo ||| hi <<< 8 = hi * 256 + lo := by
  rw [Nat.lor_comm, shl8_lor _ _ hlo]

theorem pairValues_cons (lo hi : Nat) (rest : List Nat) :
    pairValues (lo :: hi :: rest) = (lo ||| hi <<< 8) :: pairValues rest := rfl

/-- Two data bytes read in `DATA_LOW`/`DATA_HIGH`, neither completing a sync
run, whatever the count: one write event, address advanced by 2, count lowered
by 2 with wrap-around. -/
theorem feed_pair (a n d s lo hi : Nat) (rest : List Nat) (hs : s ≤ 3) (hlo : lo < 256)
    (hhi : hi < 256) (hn : n < 65536) (hq : quiet s (lo :: hi :: rest)) :
    ∃ s', s' ≤ 3 ∧ quiet s' rest ∧
      feed ⟨5, a, n, d, s⟩ (lo :: hi :: rest)
        = ((feed ⟨if n = 2 then 1 else 5, (a + 2) % 65536, (n + 65534) % 65536,
              lo ||| hi <<< 8, s'⟩ rest).1,
           Call.onDcsBiosWrite a (lo ||| hi <<< 8) :: Call.handleDcsBiosWrite a (lo ||| hi <<< 8)
             :: (feed ⟨if n = 2 then 1 else 5, (a + 2) % 65536, (n + 65534) % 65536,
                  lo ||| hi <<< 8, s'⟩ rest).2) := by
  obtain ⟨q0, q1, hq⟩ := hq
  have s1 := syncNext_le s _ hs q0
  have s2 := syncNext_le _ _ s1 q1
  refine ⟨_, s2, hq, ?_⟩
  have hval : (hi * 256 + lo) % 65536 = hi * 256 + lo := by omega
  have hn2 : ((n + 65535) % 65536 + 65535) % 65536 = (n + 65534) % 65536 := by omega
  have e1 : processChar ⟨5, a, n, d, s⟩ lo
      = (⟨6, a, (n + 65535) % 65536, lo, syncNext s lo⟩, []) := by
    rw [processChar_quiet _ _ hs q0, switchState_data_low]
  have e2 : processChar ⟨6, a, (n + 65535) % 65536, lo, syncNext s lo⟩ hi
      = (⟨if n = 2 then 1 else 5, (a + 2) % 65536, (n + 65534) % 65536, lo ||| hi <<< 8,
          syncNext (syncNext s lo) hi⟩,
         [Call.onDcsBiosWrite a (lo ||| hi <<< 8), Call.handleDcsBiosWrite a (lo ||| hi <<< 8)]) := by
    rw [processChar_quiet _ _ s1 q1, switchState_data_high, shl8_lor _ _ hlo, hval, hn2,
      lor_shl8 _ _ hlo]
    have hz : ((n + 65534) % 65536 = 0) ↔ (n = 2) := by omega
    simp [hz]
  simp only [feed_cons, e1, e2, List.nil_append, List.cons_append]

/-- The data loop over `j + 1` values: as long as no earlier value brought the
count to 0, the parser is back in `DATA_LOW`, or in `ADDRESS_LOW` when twice
the number of values is the count modulo 65536; every value gave one write
event. -/
theorem feed_loop (A : Nat) (j : Nat) :
    ∀ (bs : List Nat) (i n d s : Nat), bs.length = 2 * (j + 1) → (∀ b ∈ bs, b < 256) →
      s ≤ 3 → quiet s bs → n < 65536 →
      (∀ k, 1 ≤ k → k ≤ j → (2 * k) % 65536 ≠ n) →
      (feed ⟨5, (A + 2 * i) % 65536, n, d, s⟩ bs).1.state
          = (if (2 * (j + 1)) % 65536 = n then 1 else 5)
      ∧ (feed ⟨5, (A + 2 * i) % 65536, n, d, s⟩ bs).1.count = (n + (j + 1) * 65534) % 65536
      ∧ (feed ⟨5, (A + 2 * i) % 65536, n, d, s⟩ bs).1.address = (A + 2 * (i + j + 1)) % 65536
      ∧ (feed ⟨5, (A + 2 * i) % 65536, n, d, s⟩ bs).2 = writeCallsFrom A i (pairValues bs) := by
  induction j with
  | zero =>
    intro bs i n d s hlen hb hs hq hn _
    match bs, hlen with
    | [lo, hi], _ =>
      obtain ⟨s', -, -, hf⟩ := feed_pair ((A + 2 * i) % 65536) n d s lo hi [] hs
        (hb lo (by simp)) (hb hi (by simp)) hn hq
      rw [hf]
      simp only [feed_nil, pairValues_cons, writeCallsFrom_cons]
      refine ⟨?_, ?_, ?_, ?_⟩
      · have hz : (2 * (0 + 1)) % 65536 = n ↔ n = 2 := by omega
        simp only [hz]
      · trivial
      · show ((A + 2 * i) % 65536 + 2) % 65536 = (A + 2 * (i + 0 + 1)) % 65536
        omega
      · simp [pairValues, writeCallsFrom]
  | succ j ih =>
    intro bs i n d s hlen hb hs hq hn hleast
    match bs, hlen with
    | lo :: hi :: rest, hlen =>
      have hrest : rest.length = 2 * (j + 1) := by
        simp only [List.length_cons] at hlen
        omega
      obtain ⟨s', hs', hq', hf⟩ := feed_pair ((A + 2 * i) % 65536) n d s lo hi rest hs
        (hb lo (by simp)) (hb hi (by simp)) hn hq
      rw [hf]
      have hn2 : ¬ n = 2 := by
        have := hleast 1 (by omega) (by omega)
        omega
      have ha : ((A + 2 * i) % 65536 + 2) % 65536 = (A + 2 * (i + 1)) % 65536 := by omega
      rw [if_neg hn2, ha]
      have hlt : (n + 65534) % 65536 < 65536 := Nat.mod_lt _ (by norm_num)
      obtain ⟨h1, h2, h3, h4⟩ := ih rest (i + 1) ((n + 65534) % 65536) (lo ||| hi <<< 8) s' hrest
        (fun b hb' => hb b (by simp [hb'])) hs' hq' hlt
        (fun k hk1 hk2 => by
          have := hleast (k + 1) (by omega) (by omega)
          omega)
      refine ⟨?_, ?_, ?_, ?_⟩
      · rw [h1]
        have hz : (2 * (j + 1)) % 65536 = (n + 65534) % 65536 ↔ (2 * (j + 1 + 1)) % 65536 = n := by
          omega
        simp only [hz]
      · rw [h2]
        omega
      · rw [h3]
        have : i + 1 + j + 1 = i + (j + 1) + 1 := by omega
        rw [this]
      · rw [h4, pairValues_cons, writeCallsFrom_cons]

theorem writeCallsFrom_length (A : Nat) (vals : List Nat) :
    ∀ i, (writeCallsFrom A i vals).length = 2 * vals.length := by
  induction vals with
  | nil => intro i; simp [writeCallsFrom]
  | cons v vs ih =>
    intro i
    rw [writeCallsFrom_cons]
    simp only [List.length_cons, ih (i + 1)]
    omega

theorem writeCallsFrom_no_sync (A : Nat) (vals : List Nat) :
    ∀ i, Call.handleDcsBiosFrameSync ∉ writeCallsFrom A i vals := by
  induction vals with
  | nil => intro i; simp [writeCallsFrom]
  | cons v vs ih =>
    intro i
    rw [writeCallsFrom_cons]
    simp [ih (i + 1)]

/-- Write event `j` of a group: its two calls. -/
theorem writeCallsFrom_getElem (A : Nat) (vals : List Nat) :
    ∀ (i j v : Nat), vals[j]? = some v →
      (writeCallsFrom A i vals)[2 * j]? = some (Call.onDcsBiosWrite ((A + 2 * (i + j)) % 65536) v)
      ∧ (writeCallsFrom A i vals)[2 * j + 1]?
          = some (Call.handleDcsBiosWrite ((A + 2 * (i + j)) % 65536) v) := by
  induction vals with
  | nil => intro i j v h; simp at h
  | cons w ws ih =>
    intro i j v h
    rw [writeCallsFrom_cons]
    cases j with
    | zero =>
      simp at h
      subst h
      simp
    | succ j =>
      simp only [List.getElem?_cons_succ] at h
      obtain ⟨h1, h2⟩ := ih (i + 1) j v h
      have e1 : 2 * (j + 1) = (2 * j + 1) + 1 := by omega
      have e3 : i + 1 + j = i + (j + 1) := by omega
      rw [e1]
      simp only [List.getElem?_cons_succ]
      rw [← e3]
      exact ⟨h1, h2⟩

theorem pairValues_length : ∀ (n : Nat) (ds : List Nat), ds.length = 2 * n →
    (pairValues ds).length = n := by
  intro n
  induction n with
  | zero =>
    intro ds h
    have : ds = [] := List.length_eq_zero.mp (by omega)
    subst this
    rfl
  | succ n ih =>
    intro ds h
    match ds, h with
    | lo :: hi :: rest, h =>
      rw [pairValues_cons, List.length_cons, ih rest (by simp only [List.length_cons] at h; omega)]

theorem pairValues_getElem : ∀ (ds : List Nat) (j lo hi : Nat),
    ds[2 * j]? = some lo → ds[2 * j + 1]? = some hi →
    (pairValues ds)[j]? = some (lo ||| hi <<< 8) := by
  intro ds j
  induction j generalizing ds with
  | zero =>
    intro lo hi h0 h1
    match ds with
    | [] => simp at h0
    | [_] => simp at h1
    | a :: b :: rest =>
      simp at h0 h1
      subst h0
      subst h1
      simp [pairValues_cons]
  | succ j ih =>
    intro lo hi h0 h1
    match ds with
    | [] => simp at h0
    | [_] => simp at h1
    | a :: b :: rest =>
      have e1 : 2 * (j + 1) = (2 * j + 1) + 1 := by omega
      have e2 : 2 * (j + 1) + 1 = (2 * j + 1 + 1) + 1 := by omega
      rw [e1] at h0
      rw [e2] at h1
      simp only [List.getElem?_cons_succ] at h0 h1
      rw [pairValues_cons, List.getElem?_cons_succ]
      exact ih rest lo hi h0 h1

/-- A byte that does not complete a sync run, for any counter an `unsigned
char` can hold: only the counter changes. -/
theorem syncCheck_no_fire (st a n d s c : Nat) (hs : s < 256) (hq : ¬ (s = 3 ∧ c = 0x55)) :
    ∃ s', syncCheck ⟨st, a, n, d, s⟩ c = (⟨st, a, n, d, s'⟩, []) := by
  by_cases hc : c = 0x55
  · subst hc
    have h4 : (s + 1) % 256 ≠ 4 := by
      have : s ≠ 3 := fun e => hq ⟨e, rfl⟩
      omega
    exact ⟨(s + 1) % 256, by simp [syncCheck, h4]⟩
  · exact ⟨0, by simp [syncCheck, hc]⟩

/-- While no sync run fires the counter stays within 0..3. -/
theorem feed_quiet_counter (bs : List Nat) :
    ∀ (p : ProtocolParser), p.sync_byte_count ≤ 3 → quiet p.sync_byte_count bs →
      (feed p bs).1.sync_byte_count ≤ 3 := by
  induction bs with
  | nil => intro p h _; exact h
  | cons c bs ih =>
    intro p h hq
    obtain ⟨q0, hq⟩ := hq
    rw [feed_cons]
    apply ih
    · rw [processChar_quiet p c h q0]
      exact syncNext_le _ _ h q0
    · rw [processChar_quiet p c h q0]
      exact hq

/-- A byte met in `DATA_LOW` that does not complete a sync run leads to
`DATA_HIGH`. -/
theorem data_low_next (q : ProtocolParser) (c : Nat) (hst : q.state = 5)
    (hs : q.sync_byte_count ≤ 3) (hq : ¬ (q.sync_byte_count = 3 ∧ c = 0x55)) :
    (processChar q c).1.state = 6 := by
  obtain ⟨st, a, n, d, s⟩ := q
  simp only at hst hs hq
  subst hst
  rw [processChar_quiet _ _ hs hq, switchState_data_low]

end ParserLoop

/-- C11: from any parser in `ADDRESS_LOW` with sync counter 0, a group with
address `A ≠ 0x5555`, even count `N` with `2 ≤ N ≤ 65534` and `N` data bytes
`ds`, the `4 + N` bytes holding no four `0x55` in a row: exactly `N / 2` write
events (two calls each) and no frame sync are made, event `i` has address
`(A + 2 * i) mod 65536` and value `ds[2i] | ds[2i+1] << 8`, and the parser ends
in `ADDRESS_LOW`. -/
theorem group_decoded (p : ProtocolParser) (A N : Nat) (ds : List Nat)
    (hst : p.state = DCSBIOS_STATE_ADDRESS_LOW) (hs : p.sync_byte_count = 0)
    (hA : A < 65536) (hA5 : A ≠ 0x5555) (hNe : N % 2 = 0) (hN2 : 2 ≤ N) (hN : N ≤ 65534)
    (hlen : ds.length = N) (hb : ∀ b ∈ ds, b < 256)
    (hq : ¬ (List.replicate 4 0x55 <:+: A % 256 :: A / 256 :: N % 256 :: N / 256 :: ds)) :
    (feed p (A % 256 :: A / 256 :: N % 256 :: N / 256 :: ds)).2.length = 2 * (N / 2)
    ∧ Call.handleDcsBiosFrameSync ∉ (feed p (A % 256 :: A / 256 :: N % 256 :: N / 256 :: ds)).2
    ∧ (∀ i lo hi, ds[2 * i]? = some lo → ds[2 * i + 1]? = some hi →
        (feed p (A % 256 :: A / 256 :: N % 256 :: N / 256 :: ds)).2[2 * i]?
            = some (Call.onDcsBiosWrite ((A + 2 * i) % 65536) (lo ||| hi <<< 8))
        ∧ (feed p (A % 256 :: A / 256 :: N % 256 :: N / 256 :: ds)).2[2 * i + 1]?
            = some (Call.handleDcsBiosWrite ((A + 2 * i) % 65536) (lo ||| hi <<< 8)))
    ∧ (feed p (A % 256 :: A / 256 :: N % 256 :: N / 256 :: ds)).1.state
        = DCSBIOS_STATE_ADDRESS_LOW := by
  obtain ⟨st, a0, n0, d0, s0⟩ := p
  simp only [DCSBIOS_STATE_ADDRESS_LOW] at hst hs ⊢
  subst hst
  subst hs
  have hquiet : quiet 0 (A % 256 :: A / 256 :: N % 256 :: N / 256 :: ds) :=
    quiet_of_no_run _ 0 (by omega) (by simpa using hq)
  obtain ⟨s', hs', hq', -, hf⟩ := feed_header a0 n0 d0 0 (A % 256) (A / 256) (N % 256)
    (N / 256) ds (by omega) (by omega) (by omega) (by omega) (by omega) (by omega) hquiet
  have eA : A / 256 * 256 + A % 256 = (A + 2 * 0) % 65536 := by omega
  have eN : N / 256 * 256 + N % 256 = N := by omega
  rw [eA, eN] at hf
  obtain ⟨j, hj⟩ : ∃ j, N = 2 * (j + 1) := ⟨N / 2 - 1, by omega⟩
  obtain ⟨h1, -, -, h4⟩ := feed_loop A j ds 0 N d0 s' (by omega) hb hs' hq' (by omega)
    (fun k hk1 hk2 => by omega)
  have hcond : (2 * (j + 1)) % 65536 = N := by omega
  rw [if_pos hcond] at h1
  have hpl : (pairValues ds).length = j + 1 := pairValues_length (j + 1) ds (by omega)
  rw [hf, h4]
  refine ⟨?_, writeCallsFrom_no_sync A _ 0, ?_, h1⟩
  · rw [writeCallsFrom_length, hpl]
    omega
  · intro i lo hi h0 h1'
    have := writeCallsFrom_getElem A (pairValues ds) 0 i _ (pairValues_getElem ds i lo hi h0 h1')
    simpa using this

theorem group_decoded_witness :
    (feed (ProtocolParser.mk 1 0x1234 9 0x77 0)
        (0xFFFE % 256 :: 0xFFFE / 256 :: 4 % 256 :: 4 / 256 :: [0x01, 0x00, 0x02, 0x55])).2.length
      = 2 * (4 / 2)
    ∧ Call.handleDcsBiosFrameSync ∉ (feed (ProtocolParser.mk 1 0x1234 9 0x77 0)
        (0xFFFE % 256 :: 0xFFFE / 256 :: 4 % 256 :: 4 / 256 :: [0x01, 0x00, 0x02, 0x55])).2
    ∧ (∀ i lo hi, [0x01, 0x00, 0x02, 0x55][2 * i]? = some lo →
        [0x01, 0x00, 0x02, 0x55][2 * i + 1]? = some hi →
        (feed (ProtocolParser.mk 1 0x1234 9 0x77 0)
          (0xFFFE % 256 :: 0xFFFE / 256 :: 4 % 256 :: 4 / 256 :: [0x01, 0x00, 0x02, 0x55])).2[2 * i]?
            = some (Call.onDcsBiosWrite ((0xFFFE + 2 * i) % 65536) (lo ||| hi <<< 8))
        ∧ (feed (ProtocolParser.mk 1 0x1234 9 0x77 0)
          (0xFFFE % 256 :: 0xFFFE / 256 :: 4 % 256 :: 4 / 256 ::
            [0x01, 0x00, 0x02, 0x55])).2[2 * i + 1]?
            = some (Call.handleDcsBiosWrite ((0xFFFE + 2 * i) % 65536) (lo ||| hi <<< 8)))
    ∧ (feed (ProtocolParser.mk 1 0x1234 9 0x77 0)
        (0xFFFE % 256 :: 0xFFFE / 256 :: 4 % 256 :: 4 / 256 :: [0x01, 0x00, 0x02, 0x55])).1.state
      = DCSBIOS_STATE_ADDRESS_LOW :=
  group_decoded (ProtocolParser.mk 1 0x1234 9 0x77 0) 0xFFFE 4 [0x01, 0x00, 0x02, 0x55]
    rfl rfl (by decide) (by decide) (by decide) (by decide) (by decide) rfl (by decide)
    (by decide)

/-- C12: `processChar(c)` makes write calls exactly when the parser is in
`DATA_HIGH`, and then one write event: address the pending address, value the
stored low byte `| c << 8`, followed only by the frame sync when the byte
completes a sync run. Afterwards the address is `(address + 2) mod 65536`, the
count `(count - 1) mod 65536`, and unless the byte completes a sync run the
state is `ADDRESS_LOW` when the new count is 0 and `DATA_LOW` otherwise. The
low byte is the one the `DATA_LOW` step stored, which lowers the count by one
as well. -/
theorem data_high_write (p : ProtocolParser) (c : Nat) (hs : p.sync_byte_count < 256) :
    ((∃ a v, Call.onDcsBiosWrite a v ∈ (processChar p c).2
          ∨ Call.handleDcsBiosWrite a v ∈ (processChar p c).2)
        ↔ p.state = DCSBIOS_STATE_DATA_HIGH)
    ∧ (p.state = DCSBIOS_STATE_DATA_HIGH →
        (processChar p c).2
          = [Call.onDcsBiosWrite p.address ((c <<< 8 ||| p.data) % 65536),
             Call.handleDcsBiosWrite p.address ((c <<< 8 ||| p.data) % 65536)]
            ++ (if p.sync_byte_count = 3 ∧ c = 0x55 then [Call.handleDcsBiosFrameSync] else [])
        ∧ (p.data < 256 → c < 256 → (c <<< 8 ||| p.data) % 65536 = p.data ||| c <<< 8)
        ∧ (processChar p c).1.address = (p.address + 2) % 65536
        ∧ ((processChar p c).1.count : Int) = ((p.count : Int) - 1) % 65536
        ∧ (¬ (p.sync_byte_count = 3 ∧ c = 0x55) →
            (processChar p c).1.state
              = (if (processChar p c).1.count = 0 then DCSBIOS_STATE_ADDRESS_LOW
                 else DCSBIOS_STATE_DATA_LOW)))
    ∧ (p.state = DCSBIOS_STATE_DATA_LOW →
        (processChar p c).1.data = c
        ∧ ((processChar p c).1.count : Int) = ((p.count : Int) - 1) % 65536
        ∧ (¬ (p.sync_byte_count = 3 ∧ c = 0x55) →
            (processChar p c).1.state = DCSBIOS_STATE_DATA_HIGH)) := by
  obtain ⟨st, a, n, d, s⟩ := p
  simp only at hs
  have hfire : ∀ st' a' n' d', s = 3 ∧ c = 0x55 →
      syncCheck ⟨st', a', n', d', s⟩ c = (⟨1, a', n', d', 0⟩, [Call.handleDcsBiosFrameSync]) := by
    rintro st' a' n' d' ⟨rfl, rfl⟩
    exact syncCheck_fire st' a' n' d'
  refine ⟨?_, ?_, ?_⟩
  · have hsync : ∀ (q : ProtocolParser) (a' v' : Nat),
        Call.onDcsBiosWrite a' v' ∉ (syncCheck q c).2
        ∧ Call.handleDcsBiosWrite a' v' ∉ (syncCheck q c).2 := by
      intro q a' v'
      unfold syncCheck
      dsimp only
      split_ifs <;> simp
    simp only [processChar, switchState_calls, List.mem_append]
    constructor
    · rintro ⟨a', v', h⟩
      by_contra hne
      rw [if_neg hne] at h
      rcases h with (h | h) | (h | h)
      · simp at h
      · exact (hsync _ a' v').1 h
      · simp at h
      · exact (hsync _ a' v').2 h
    · intro h
      refine ⟨a, (c <<< 8 ||| d) % 65536, Or.inl (Or.inl ?_)⟩
      rw [if_pos h]
      simp
  · intro hst
    simp only [DCSBIOS_STATE_DATA_HIGH] at hst
    subst hst
    have hcount : (((n + 65535) % 65536 : Nat) : Int) = ((n : Int) - 1) % 65536 := by omega
    simp only [processChar, switchState_data_high]
    refine ⟨?_, ?_, ?_, ?_, ?_⟩
    · by_cases hf : s = 3 ∧ c = 0x55
      · rw [hfire _ _ _ _ hf, if_pos hf]
      · obtain ⟨s', hs'⟩ := syncCheck_no_fire (if (n + 65535) % 65536 = 0 then 1 else 5)
          ((a + 2) % 65536) ((n + 65535) % 65536) ((c <<< 8 ||| d) % 65536) s c hs hf
        rw [hs', if_neg hf]
    · intro hd hc
      have h1 : (c * 256 + d) % 65536 = c * 256 + d := by omega
      rw [shl8_lor _ _ hd, lor_shl8 _ _ hd, h1]
    · by_cases hf : s = 3 ∧ c = 0x55
      · rw [hfire _ _ _ _ hf]
      · obtain ⟨s', hs'⟩ := syncCheck_no_fire (if (n + 65535) % 65536 = 0 then 1 else 5)
          ((a + 2) % 65536) ((n + 65535) % 65536) ((c <<< 8 ||| d) % 65536) s c hs hf
        rw [hs']
    · by_cases hf : s = 3 ∧ c = 0x55
      · rw [hfire _ _ _ _ hf]
        exact hcount
      · obtain ⟨s', hs'⟩ := syncCheck_no_fire (if (n + 65535) % 65536 = 0 then 1 else 5)
          ((a + 2) % 65536) ((n + 65535) % 65536) ((c <<< 8 ||| d) % 65536) s c hs hf
        rw [hs']
        exact hcount
    · intro hf
      obtain ⟨s', hs'⟩ := syncCheck_no_fire (if (n + 65535) % 65536 = 0 then 1 else 5)
        ((a + 2) % 65536) ((n + 65535) % 65536) ((c <<< 8 ||| d) % 65536) s c hs hf
      rw [hs']
      simp only [DCSBIOS_STATE_ADDRESS_LOW, DCSBIOS_STATE_DATA_LOW]
  · intro hst
    simp only [DCSBIOS_STATE_DATA_LOW] at hst
    subst hst
    have hcount : (((n + 65535) % 65536 : Nat) : Int) = ((n : Int) - 1) % 65536 := by omega
    simp only [processChar, switchState_data_low]
    refine ⟨?_, ?_, ?_⟩
    · by_cases hf : s = 3 ∧ c = 0x55
      · rw [hfire _ _ _ _ hf]
      · obtain ⟨s', hs'⟩ := syncCheck_no_fire 6 a ((n + 65535) % 65536) c s c hs hf
        rw [hs']
    · by_cases hf : s = 3 ∧ c = 0x55
      · rw [hfire _ _ _ _ hf]
        exact hcount
      · obtain ⟨s', hs'⟩ := syncCheck_no_fire 6 a ((n + 65535) % 65536) c s c hs hf
        rw [hs']
        exact hcount
    · intro hf
      obtain ⟨s', hs'⟩ := syncCheck_no_fire 6 a ((n + 65535) % 65536) c s c hs hf
      rw [hs']
      rfl

theorem data_high_write_witness :
    (processChar (ProtocolParser.mk 6 0xFFFE 1 0xAA 3) 0x55).2
        = [Call.onDcsBiosWrite 0xFFFE 0x55AA, Call.handleDcsBiosWrite 0xFFFE 0x55AA,
           Call.handleDcsBiosFrameSync]
    ∧ (processChar (ProtocolParser.mk 6 0xFFFE 1 0xAA 3) 0x55).1.address = 0
    ∧ (processChar (ProtocolParser.mk 6 0xFFFE 1 0xAA 3) 0x55).1.count = 0 :=
  have h := (data_high_write (ProtocolParser.mk 6 0xFFFE 1 0xAA 3) 0x55 (by decide)).2.1 rfl
  ⟨h.1, h.2.2.1, by decide⟩

/-- C13: in `ADDRESS_HIGH` with a low byte `lo` pending, `processChar(c)` makes
no write call. If `lo = c = 0x55` the parser goes to `WAIT_FOR_SYNC`, or to
`ADDRESS_LOW` when the byte completes a sync run, never to `COUNT_LOW`. For
every other `(lo, c)` the address becomes `lo | c << 8` and the state
`COUNT_LOW`, or `ADDRESS_LOW` when the byte completes a sync run. -/
theorem address_high_step (p : ProtocolParser) (c : Nat)
    (hst : p.state = DCSBIOS_STATE_ADDRESS_HIGH) (hlo : p.address < 256) (hc : c < 256)
    (hs : p.sync_byte_count < 256) :
    (∀ a v, Call.onDcsBiosWrite a v ∉ (processChar p c).2
        ∧ Call.handleDcsBiosWrite a v ∉ (processChar p c).2)
    ∧ (p.address = 0x55 ∧ c = 0x55 →
        (processChar p c).1.state
            = (if p.sync_byte_count = 3 then DCSBIOS_STATE_ADDRESS_LOW
               else DCSBIOS_STATE_WAIT_FOR_SYNC)
        ∧ (processChar p c).1.state ≠ DCSBIOS_STATE_COUNT_LOW)
    ∧ (¬ (p.address = 0x55 ∧ c = 0x55) →
        (processChar p c).1.address = p.address ||| c <<< 8
        ∧ (processChar p c).1.state
            = (if p.sync_byte_count = 3 ∧ c = 0x55 then DCSBIOS_STATE_ADDRESS_LOW
               else DCSBIOS_STATE_COUNT_LOW)) := by
  obtain ⟨st, lo, n, d, s⟩ := p
  simp only [DCSBIOS_STATE_ADDRESS_HIGH] at hst hlo hs
  subst hst
  have haddr : (c <<< 8 ||| lo) % 65536 = c * 256 + lo := by
    rw [shl8_lor _ _ hlo]
    omega
  simp only [processChar, switchState_address_high, haddr, List.nil_append,
    DCSBIOS_STATE_ADDRESS_LOW, DCSBIOS_STATE_WAIT_FOR_SYNC, DCSBIOS_STATE_COUNT_LOW]
  refine ⟨?_, ?_, ?_⟩
  · intro a v
    unfold syncCheck
    dsimp only
    split_ifs <;> simp
  · rintro ⟨rfl, rfl⟩
    by_cases h3 : s = 3
    · subst h3
      simp [syncCheck_fire]
    · obtain ⟨s', hs'⟩ := syncCheck_no_fire (if 85 * 256 + 85 = 21845 then 0 else 3)
        (85 * 256 + 85) n d s 85 hs (fun h => h3 h.1)
      rw [hs']
      simp [h3]
  · intro hne
    have hsent : ¬ c * 256 + lo = 21845 := by omega
    rw [if_neg hsent]
    by_cases hf : s = 3 ∧ c = 0x55
    · obtain ⟨rfl, rfl⟩ := hf
      rw [syncCheck_fire]
      exact ⟨(lor_shl8 _ _ hlo).symm, by simp⟩
    · obtain ⟨s', hs'⟩ := syncCheck_no_fire 3 (c * 256 + lo) n d s c hs hf
      rw [hs', if_neg hf]
      exact ⟨(lor_shl8 _ _ hlo).symm, rfl⟩

theorem address_high_step_witness :
    (∀ a v, Call.onDcsBiosWrite a v ∉ (processChar (ProtocolParser.mk 2 0x10 7 9 2) 0x55).2
        ∧ Call.handleDcsBiosWrite a v ∉ (processChar (ProtocolParser.mk 2 0x10 7 9 2) 0x55).2)
    ∧ (processChar (ProtocolParser.mk 2 0x10 7 9 2) 0x55).1.address = 0x10 ||| 0x55 <<< 8
    ∧ (processChar (ProtocolParser.mk 2 0x10 7 9 2) 0x55).1.state
        = (if (2 : Nat) = 3 ∧ (0x55 : Nat) = 0x55 then DCSBIOS_STATE_ADDRESS_LOW
           else DCSBIOS_STATE_COUNT_LOW) :=
  have h := address_high_step (ProtocolParser.mk 2 0x10 7 9 2) 0x55 rfl (by decide) (by decide)
    (by decide)
  ⟨h.1, h.2.2 (by decide)⟩

/-- C14: from `DATA_LOW` with count `N` (what a group header leaves), fed `k ≥ 1`
values with no sync run firing. If no earlier value `i < k` had `2 * i` congruent
to `N` modulo 65536, every value gave one write event and the parser is in
`ADDRESS_LOW` exactly when `2 * k` is congruent to `N`, else in `DATA_LOW`. So
for even `N ≥ 2` the group ends after `N / 2` values, for `N = 0` after 32768
values, and for odd `N` never. -/
theorem count_wraparound (a N d s k : Nat) (bs : List Nat) (ha : a < 65536) (hN : N < 65536)
    (hs : s ≤ 3) (hk : 1 ≤ k) (hlen : bs.length = 2 * k) (hb : ∀ b ∈ bs, b < 256)
    (hq : ¬ (List.replicate 4 0x55 <:+: List.replicate s 0x55 ++ bs)) :
    (pairValues bs).length = k
    ∧ ((∀ i, 1 ≤ i → i < k → (2 * i) % 65536 ≠ N) →
        (feed ⟨DCSBIOS_STATE_DATA_LOW, a, N, d, s⟩ bs).2 = writeCallsFrom a 0 (pairValues bs)
        ∧ (feed ⟨DCSBIOS_STATE_DATA_LOW, a, N, d, s⟩ bs).1.state
            = (if (2 * k) % 65536 = N then DCSBIOS_STATE_ADDRESS_LOW
               else DCSBIOS_STATE_DATA_LOW))
    ∧ (N % 2 = 0 → 2 ≤ N → k ≤ N / 2 →
        (feed ⟨DCSBIOS_STATE_DATA_LOW, a, N, d, s⟩ bs).2 = writeCallsFrom a 0 (pairValues bs)
        ∧ (feed ⟨DCSBIOS_STATE_DATA_LOW, a, N, d, s⟩ bs).1.state
            = (if k = N / 2 then DCSBIOS_STATE_ADDRESS_LOW else DCSBIOS_STATE_DATA_LOW))
    ∧ (N = 0 → k ≤ 32768 →
        (feed ⟨DCSBIOS_STATE_DATA_LOW, a, N, d, s⟩ bs).2 = writeCallsFrom a 0 (pairValues bs)
        ∧ (feed ⟨DCSBIOS_STATE_DATA_LOW, a, N, d, s⟩ bs).1.state
            = (if k = 32768 then DCSBIOS_STATE_ADDRESS_LOW else DCSBIOS_STATE_DATA_LOW))
    ∧ (N % 2 = 1 →
        (feed ⟨DCSBIOS_STATE_DATA_LOW, a, N, d, s⟩ bs).2 = writeCallsFrom a 0 (pairValues bs)
        ∧ (feed ⟨DCSBIOS_STATE_DATA_LOW, a, N, d, s⟩ bs).1.state = DCSBIOS_STATE_DATA_LOW
        ∧ ∀ c, ¬ ((feed ⟨DCSBIOS_STATE_DATA_LOW, a, N, d, s⟩ bs).1.sync_byte_count = 3
                  ∧ c = 0x55) →
            (processChar (feed ⟨DCSBIOS_STATE_DATA_LOW, a, N, d, s⟩ bs).1 c).1.state
              = DCSBIOS_STATE_DATA_HIGH) := by
  have hquiet : quiet s bs := quiet_of_no_run bs s hs hq
  obtain ⟨j, rfl⟩ : ∃ j, k = j + 1 := ⟨k - 1, by omega⟩
  have ea : a = (a + 2 * 0) % 65536 := by omega
  have main : (∀ i, 1 ≤ i → i < j + 1 → (2 * i) % 65536 ≠ N) →
      (feed ⟨DCSBIOS_STATE_DATA_LOW, a, N, d, s⟩ bs).2 = writeCallsFrom a 0 (pairValues bs)
      ∧ (feed ⟨DCSBIOS_STATE_DATA_LOW, a, N, d, s⟩ bs).1.state
          = (if (2 * (j + 1)) % 65536 = N then DCSBIOS_STATE_ADDRESS_LOW
             else DCSBIOS_STATE_DATA_LOW) := by
    intro hleast
    obtain ⟨h1, -, -, h4⟩ := feed_loop a j bs 0 N d s hlen hb hs hquiet hN
      (fun i hi1 hi2 => hleast i hi1 (by omega))
    rw [← ea] at h1 h4
    exact ⟨h4, h1⟩
  refine ⟨pairValues_length (j + 1) bs hlen, main, ?_, ?_, ?_⟩
  · intro he h2 hle
    obtain ⟨m1, m2⟩ := main (fun i hi1 hi2 => by omega)
    refine ⟨m1, ?_⟩
    rw [m2]
    have : ((2 * (j + 1)) % 65536 = N) ↔ (j + 1 = N / 2) := by omega
    simp only [this]
  · intro h0 hle
    obtain ⟨m1, m2⟩ := main (fun i hi1 hi2 => by omega)
    refine ⟨m1, ?_⟩
    rw [m2]
    have : ((2 * (j + 1)) % 65536 = N) ↔ (j + 1 = 32768) := by omega
    simp only [this]
  · intro hodd
    obtain ⟨m1, m2⟩ := main (fun i hi1 hi2 => by omega)
    have hno : ¬ ((2 * (j + 1)) % 65536 = N) := by omega
    rw [if_neg hno] at m2
    refine ⟨m1, m2, fun c hc => ?_⟩
    exact data_low_next _ c m2 (feed_quiet_counter bs _ hs hquiet) hc

theorem count_wraparound_witness :
    (feed ⟨DCSBIOS_STATE_DATA_LOW, 0x1000, 3, 0, 1⟩ [0x41, 0x42, 0x43, 0x44]).2
        = writeCallsFrom 0x1000 0 (pairValues [0x41, 0x42, 0x43, 0x44])
    ∧ (feed ⟨DCSBIOS_STATE_DATA_LOW, 0x1000, 3, 0, 1⟩ [0x41, 0x42, 0x43, 0x44]).1.state
        = DCSBIOS_STATE_DATA_LOW
    ∧ ∀ c, ¬ ((feed ⟨DCSBIOS_STATE_DATA_LOW, 0x1000, 3, 0, 1⟩
                [0x41, 0x42, 0x43, 0x44]).1.sync_byte_count = 3 ∧ c = 0x55) →
        (processChar (feed ⟨DCSBIOS_STATE_DATA_LOW, 0x1000, 3, 0, 1⟩
          [0x41, 0x42, 0x43, 0x44]).1 c).1.state = DCSBIOS_STATE_DATA_HIGH :=
  (count_wraparound 0x1000 3 0 1 2 [0x41, 0x42, 0x43, 0x44] (by decide) (by decide) (by decide)
    (by decide) rfl (by decide) (by decide)).2.2.2.2 (by decide)

/-! ## Theorems: rotary encoder, switch, button -/

section Rotary

/-- One pass through the `switch` moves a `delta_` within -3..3 by at most one
step, and not at all when the reading repeats the last state or is two
quadrature steps from it. -/
theorem rotary_step_cases (last state : Nat) (d : Int) (h1 : -3 ≤ d) (h2 : d ≤ 3) :
    (RotaryEncoder.step last state d = d ∨ RotaryEncoder.step last state d = d + 1
      ∨ RotaryEncoder.step last state d = d - 1)
    ∧ (state = last ∨ (last = 0 ∧ state = 3) ∨ (last = 3 ∧ state = 0) ∨ (last = 1 ∧ state = 2)
        ∨ (last = 2 ∧ state = 1) → RotaryEncoder.step last state d = d) := by
  have hm : toSChar (d - 1) = d - 1 := by unfold toSChar; omega
  have hp : toSChar (d + 1) = d + 1 := by unfold toSChar; omega
  simp only [RotaryEncoder.step]
  constructor
  · split_ifs <;> simp_all
  · intro h
    split_ifs <;> simp_all

theorem rotary_pollInput_delta (enc : RotaryEncoder) (r : Nat → Nat)
    (h1 : -3 ≤ enc.delta_) (h2 : enc.delta_ ≤ 3) :
    -3 ≤ (enc.pollInput r).1.delta_ ∧ (enc.pollInput r).1.delta_ ≤ 3 := by
  have hs := (rotary_step_cases enc.lastState_ (enc.readState r) enc.delta_ h1 h2).1
  simp only [RotaryEncoder.pollInput]
  split_ifs <;> omega

theorem rotary_pollAll_delta (readings : List (Nat → Nat)) :
    ∀ (enc : RotaryEncoder), -3 ≤ enc.delta_ → enc.delta_ ≤ 3 →
      -3 ≤ (enc.pollAll readings).delta_ ∧ (enc.pollAll readings).delta_ ≤ 3 := by
  induction readings with
  | nil => intro enc h1 h2; exact ⟨h1, h2⟩
  | cons r rs ih =>
    intro enc h1 h2
    obtain ⟨k1, k2⟩ := rotary_pollInput_delta enc r h1 h2
    exact ih (enc.pollInput r).1 k1 k2

end Rotary

/-- C15: a `RotaryEncoder` is constructed (`delta_ = 0`) and polled with any
sequence of readings; `enc` is the encoder after them. Then `delta_` is within
-3..3. The next `pollInput` moves the accumulated delta by at most one step; it
sends exactly one message, with `incArg_`, when the accumulated delta reaches
4, exactly one, with `decArg_`, when it reaches -4, and none otherwise; after a
message `delta_` is 0; and a reading equal to `lastState_` or two quadrature
steps from it leaves `delta_` unchanged and sends nothing. -/
theorem rotary_delta_bounded (msg decArg incArg : String) (pinA pinB : Nat)
    (digitalRead0 : Nat → Nat) (readings : List (Nat → Nat)) (r : Nat → Nat)
    (enc : RotaryEncoder)
    (henc : enc = (RotaryEncoder.new msg decArg incArg pinA pinB digitalRead0).pollAll readings) :
    (-3 ≤ enc.delta_ ∧ enc.delta_ ≤ 3)
    ∧ (RotaryEncoder.step enc.lastState_ (enc.readState r) enc.delta_ = enc.delta_
        ∨ RotaryEncoder.step enc.lastState_ (enc.readState r) enc.delta_ = enc.delta_ + 1
        ∨ RotaryEncoder.step enc.lastState_ (enc.readState r) enc.delta_ = enc.delta_ - 1)
    ∧ (enc.pollInput r).2
        = (if RotaryEncoder.step enc.lastState_ (enc.readState r) enc.delta_ = 4
             then [⟨enc.msg_, enc.incArg_⟩]
           else if RotaryEncoder.step enc.lastState_ (enc.readState r) enc.delta_ = -4
             then [⟨enc.msg_, enc.decArg_⟩]
           else [])
    ∧ ((enc.pollInput r).2 ≠ [] → (enc.pollInput r).1.delta_ = 0)
    ∧ (-3 ≤ (enc.pollInput r).1.delta_ ∧ (enc.pollInput r).1.delta_ ≤ 3)
    ∧ (enc.readState r = enc.lastState_
        ∨ (enc.lastState_ = 0 ∧ enc.readState r = 3) ∨ (enc.lastState_ = 3 ∧ enc.readState r = 0)
        ∨ (enc.lastState_ = 1 ∧ enc.readState r = 2) ∨ (enc.lastState_ = 2 ∧ enc.readState r = 1) →
        (enc.pollInput r).1.delta_ = enc.delta_ ∧ (enc.pollInput r).2 = []) := by
  have hb : -3 ≤ enc.delta_ ∧ enc.delta_ ≤ 3 := by
    rw [henc]
    apply rotary_pollAll_delta
    · simp [RotaryEncoder.new]
    · simp [RotaryEncoder.new]
  obtain ⟨c1, c2⟩ := rotary_step_cases enc.lastState_ (enc.readState r) enc.delta_ hb.1 hb.2
  refine ⟨hb, c1, ?_, ?_, rotary_pollInput_delta enc r hb.1 hb.2, ?_⟩
  · simp only [RotaryEncoder.pollInput]
    split_ifs <;> simp_all
  · simp only [RotaryEncoder.pollInput]
    split_ifs <;> simp_all
  · intro h
    have hstep := c2 h
    simp only [RotaryEncoder.pollInput, hstep]
    have n4 : ¬ enc.delta_ = 4 := by omega
    have m4 : ¬ enc.delta_ = -4 := by omega
    simp [n4, m4]

theorem rotary_delta_bounded_witness :
    (((RotaryEncoder.new "KNOB" "DEC" "INC" 2 3 (fun _ => 1)).pollAll
        [fun pin => if pin = 2 then 1 else 0, fun _ => 0,
         fun pin => if pin = 3 then 1 else 0]).pollInput (fun _ => 1)).2
      = (if RotaryEncoder.step
              ((RotaryEncoder.new "KNOB" "DEC" "INC" 2 3 (fun _ => 1)).pollAll
                [fun pin => if pin = 2 then 1 else 0, fun _ => 0,
                 fun pin => if pin = 3 then 1 else 0]).lastState_
              (((RotaryEncoder.new "KNOB" "DEC" "INC" 2 3 (fun _ => 1)).pollAll
                [fun pin => if pin = 2 then 1 else 0, fun _ => 0,
                 fun pin => if pin = 3 then 1 else 0]).readState (fun _ => 1))
              ((RotaryEncoder.new "KNOB" "DEC" "INC" 2 3 (fun _ => 1)).pollAll
                [fun pin => if pin = 2 then 1 else 0, fun _ => 0,
                 fun pin => if pin = 3 then 1 else 0]).delta_ = 4
           then [⟨"KNOB", "INC"⟩]
         else if RotaryEncoder.step
              ((RotaryEncoder.new "KNOB" "DEC" "INC" 2 3 (fun _ => 1)).pollAll
                [fun pin => if pin = 2 then 1 else 0, fun _ => 0,
                 fun pin => if pin = 3 then 1 else 0]).lastState_
              (((RotaryEncoder.new "KNOB" "DEC" "INC" 2 3 (fun _ => 1)).pollAll
                [fun pin => if pin = 2 then 1 else 0, fun _ => 0,
                 fun pin => if pin = 3 then 1 else 0]).readState (fun _ => 1))
              ((RotaryEncoder.new "KNOB" "DEC" "INC" 2 3 (fun _ => 1)).pollAll
                [fun pin => if pin = 2 then 1 else 0, fun _ => 0,
                 fun pin => if pin = 3 then 1 else 0]).delta_ = -4
           then [⟨"KNOB", "DEC"⟩]
         else []) :=
  (rotary_delta_bounded "KNOB" "DEC" "INC" 2 3 (fun _ => 1)
    [fun pin => if pin = 2 then 1 else 0, fun _ => 0, fun pin => if pin = 3 then 1 else 0]
    (fun _ => 1) _ rfl).2.2.1

/-- C16, the code at the failing input: a `Switch2Pos` built with `reverse`
set while the pin reads HIGH, then polled with the pin still HIGH, sends the
message with argument "1"; polled instead with the pin gone LOW, it sends
nothing. In general, with `reverse` set the first poll sends a message exactly
when the level is the one read at construction, while with `reverse` clear it
sends one exactly when the level differs. -/
theorem switch2pos_reversed_first_poll :
    ((Switch2Pos.init_ "SW" 2 true (fun _ => HIGH)).pollInput (fun _ => HIGH)).2
        = [⟨"SW", "1"⟩]
    ∧ ((Switch2Pos.init_ "SW" 2 true (fun _ => HIGH)).pollInput (fun _ => LOW)).2 = []
    ∧ (∀ (msg : String) (pin : Nat) (dr0 dr : Nat → Nat), dr0 pin ≤ 1 → dr pin ≤ 1 →
        ((Switch2Pos.init_ msg pin true dr0).pollInput dr).2
          = (if dr pin = dr0 pin then [⟨msg, if dr pin = HIGH then "1" else "0"⟩] else []))
    ∧ (∀ (msg : String) (pin : Nat) (dr0 dr : Nat → Nat),
        ((Switch2Pos.init_ msg pin false dr0).pollInput dr).2
          = (if dr pin = dr0 pin then [] else [⟨msg, if dr pin = HIGH then "0" else "1"⟩])) := by
  refine ⟨by decide, by decide, ?_, ?_⟩
  · intro msg pin dr0 dr h0 h1
    have c0 : dr0 pin = 0 ∨ dr0 pin = 1 := by omega
    have c1 : dr pin = 0 ∨ dr pin = 1 := by omega
    rcases c0 with e0 | e0 <;> rcases c1 with e1 | e1 <;>
      simp [Switch2Pos.init_, Switch2Pos.pollInput, Switch2Pos.sample, HIGH, e0, e1]
  · intro msg pin dr0 dr
    simp only [Switch2Pos.init_, Switch2Pos.pollInput, Switch2Pos.sample]
    split_ifs <;> simp_all

/-- C17: for every `ActionButton`, stored state and reading, `pollInput` sends
exactly the one message `(msg_, arg_)` when `lastState_` is HIGH and the reading
is LOW, and nothing in every other case; `lastState_` is the reading
afterwards. -/
theorem action_button_press (b : ActionButton) (digitalRead : Nat → Nat) :
    (b.lastState_ = HIGH ∧ digitalRead b.pin_ = LOW →
      (b.pollInput digitalRead).2 = [⟨b.msg_, b.arg_⟩])
    ∧ (¬ (b.lastState_ = HIGH ∧ digitalRead b.pin_ = LOW) → (b.pollInput digitalRead).2 = [])
    ∧ (b.pollInput digitalRead).1.lastState_ = digitalRead b.pin_ := by
  simp only [ActionButton.pollInput, HIGH, LOW]
  refine ⟨?_, ?_, trivial⟩
  · rintro ⟨h1, h2⟩
    have : digitalRead b.pin_ ≠ b.lastState_ := by omega
    simp [h1, h2]
  · intro h
    split_ifs <;> rfl

/-- C20: `LED::onDcsBiosWrite(a, v)` writes the pin HIGH when `a = address_` and
`v & mask_` is not 0, LOW when `a = address_` and `v & mask_` is 0, and makes no
pin write when `a ≠ address_`. -/
theorem led_write (led : LED) (a v : Nat) :
    (a = led.address_ ∧ v &&& led.mask_ ≠ 0 → led.onDcsBiosWrite a v = [⟨led.pin_, HIGH⟩])
    ∧ (a = led.address_ ∧ v &&& led.mask_ = 0 → led.onDcsBiosWrite a v = [⟨led.pin_, LOW⟩])
    ∧ (a ≠ led.address_ → led.onDcsBiosWrite a v = []) := by
  refine ⟨?_, ?_, ?_⟩
  · rintro ⟨rfl, h⟩
    simp [LED.onDcsBiosWrite, h]
  · rintro ⟨rfl, h⟩
    simp [LED.onDcsBiosWrite, h]
  · intro h
    have : ¬ led.address_ = a := fun e => h e.symm
    simp [LED.onDcsBiosWrite, this]

/-! ## Theorems: string buffer -/

section StringBufferBasics

theorem setChar_buffer (sb : StringBuffer) (index value i : Nat) :
    (sb.setChar index value).buffer i = sb.buffer i
    ∨ (i = index ∧ (sb.setChar index value).buffer i = toSChar (value : Int)) := by
  unfold StringBuffer.setChar
  split_ifs with h
  · exact Or.inl rfl
  · by_cases hi : i = index
    · exact Or.inr ⟨hi, by simp [hi]⟩
    · exact Or.inl (by simp [hi])

theorem setChar_other (sb : StringBuffer) (index value i : Nat) (hi : i ≠ index) :
    (sb.setChar index value).buffer i = sb.buffer i := by
  unfold StringBuffer.setChar
  split_ifs with h
  · rfl
  · simp [hi]

/-- For a character below `0x80`, `setChar` raises `dirty_` only when it
changes the stored character. -/
theorem setChar_dirty (sb : StringBuffer) (index value : Nat) (hv : value < 128) :
    (sb.setChar index value).dirty_ = true →
      sb.dirty_ = true ∨ (sb.setChar index value).buffer index ≠ sb.buffer index := by
  unfold StringBuffer.setChar
  split_ifs with h
  · exact fun hd => Or.inl hd
  · intro _
    refine Or.inr ?_
    have : toSChar (value : Int) = (value : Int) := by unfold toSChar; omega
    simp only [if_true, this]
    exact fun e => h e.symm

theorem setChar_fields (sb : StringBuffer) (index value : Nat) :
    (sb.setChar index value).LENGTH = sb.LENGTH
    ∧ (sb.setChar index value).address_ = sb.address_ := by
  unfold StringBuffer.setChar
  split_ifs <;> exact ⟨rfl, rfl⟩

theorem store_fields (sb : StringBuffer) (address value : Nat) :
    (sb.store address value).LENGTH = sb.LENGTH
    ∧ (sb.store address value).address_ = sb.address_ := by
  unfold StringBuffer.store
  dsimp only
  split_ifs
  · exact ⟨((setChar_fields _ _ _).1).trans (setChar_fields _ _ _).1,
      ((setChar_fields _ _ _).2).trans (setChar_fields _ _ _).2⟩
  · exact setChar_fields _ _ _
  · exact ⟨rfl, rfl⟩

theorem onDcsBiosWrite_buffer (sb : StringBuffer) (address value : Nat) :
    (sb.onDcsBiosWrite address value).1.buffer = (sb.store address value).buffer
    ∧ (sb.onDcsBiosWrite address value).1.LENGTH = sb.LENGTH
    ∧ (sb.onDcsBiosWrite address value).1.address_ = sb.address_ := by
  unfold StringBuffer.onDcsBiosWrite
  dsimp only
  split_ifs <;> exact ⟨rfl, (store_fields sb address value).1, (store_fields sb address value).2⟩

/-- The stores of one write: a character changes only at an index below
`LENGTH`, index `address - address_` for the low byte and the next one for the
high byte. -/
theorem store_changes (sb : StringBuffer) (address value i : Nat) (hL : sb.LENGTH < 65536)
    (ha_ : sb.address_ < 65536) (ha : address < 65536)
    (hne : (sb.store address value).buffer i ≠ sb.buffer i) :
    i < sb.LENGTH ∧ sb.address_ ≤ address
    ∧ ((i = address - sb.address_
          ∧ (sb.store address value).buffer i = toSChar ((value % 256 : Nat) : Int))
        ∨ (i = address - sb.address_ + 1
          ∧ (sb.store address value).buffer i = toSChar ((value / 256 % 256 : Nat) : Int))) := by
  unfold StringBuffer.store at hne ⊢
  dsimp only at hne ⊢
  by_cases c1 : address ≥ sb.address_ ∧ (sb.address_ + sb.LENGTH) % 65536 > address
  · rw [if_pos c1] at hne ⊢
    have e0 : (address + 65536 - sb.address_) % 65536 = address - sb.address_ := by omega
    have hi0 : address - sb.address_ < sb.LENGTH := by omega
    rw [e0] at hne ⊢
    by_cases c2 : (sb.address_ + sb.LENGTH) % 65536 > (address + 1) % 65536
    · rw [if_pos c2] at hne ⊢
      have e1 : (address - sb.address_ + 1) % 65536 = address - sb.address_ + 1 := by omega
      have hi1 : address - sb.address_ + 1 < sb.LENGTH := by omega
      rw [e1] at hne ⊢
      rcases setChar_buffer (sb.setChar (address - sb.address_) (value % 256))
        (address - sb.address_ + 1) (value / 256 % 256) i with h2 | ⟨h2, h2'⟩
      · rw [h2] at hne ⊢
        rcases setChar_buffer sb (address - sb.address_) (value % 256) i with h1 | ⟨h1, h1'⟩
        · exact absurd h1 hne
        · exact ⟨by omega, c1.1, Or.inl ⟨h1, h1'⟩⟩
      · exact ⟨by omega, c1.1, Or.inr ⟨h2, h2'⟩⟩
    · rw [if_neg c2] at hne ⊢
      rcases setChar_buffer sb (address - sb.address_) (value % 256) i with h1 | ⟨h1, h1'⟩
      · exact absurd h1 hne
      · exact ⟨by omega, c1.1, Or.inl ⟨h1, h1'⟩⟩
  · rw [if_neg c1] at hne
    exact absurd rfl hne

theorem writeAll_terminator (ws : List (Nat × Nat)) :
    ∀ (sb : StringBuffer), sb.LENGTH < 65536 → sb.address_ < 65536 →
      (∀ w ∈ ws, w.1 < 65536) →
      (sb.writeAll ws).1.buffer sb.LENGTH = sb.buffer sb.LENGTH
      ∧ (sb.writeAll ws).1.LENGTH = sb.LENGTH := by
  induction ws with
  | nil => intro sb _ _ _; exact ⟨rfl, rfl⟩
  | cons w ws ih =>
    intro sb hL ha_ hws
    obtain ⟨b1, b2, b3⟩ := onDcsBiosWrite_buffer sb w.1 w.2
    have hstep : (sb.onDcsBiosWrite w.1 w.2).1.buffer sb.LENGTH = sb.buffer sb.LENGTH := by
      rw [b1]
      by_contra hne
      have := (store_changes sb w.1 w.2 sb.LENGTH hL ha_ (hws w (by simp)) hne).1
      omega
    obtain ⟨i1, i2⟩ := ih (sb.onDcsBiosWrite w.1 w.2).1 (by rw [b2]; exact hL)
      (by rw [b3]; exact ha_) (fun x hx => hws x (List.mem_cons_of_mem _ hx))
    show ((sb.onDcsBiosWrite w.1 w.2).1.writeAll ws).1.buffer sb.LENGTH = sb.buffer sb.LENGTH
      ∧ ((sb.onDcsBiosWrite w.1 w.2).1.writeAll ws).1.LENGTH = sb.LENGTH
    rw [b2] at i1 i2
    exact ⟨i1.trans hstep, i2⟩

end StringBufferBasics

/-- C19: `onDcsBiosWrite(address, value)` changes `buffer` only at indices below
`LENGTH`: the low byte of `value` at `address - address_`, the high byte at
`address - address_ + 1`. So `buffer[LENGTH]` keeps its value through every
sequence of writes, and after construction it is `'\0'` for ever. -/
theorem string_buffer_bounds (sb : StringBuffer) (address value : Nat) (ws : List (Nat × Nat))
    (hL : sb.LENGTH < 65536) (ha_ : sb.address_ < 65536) (ha : address < 65536)
    (hws : ∀ w ∈ ws, w.1 < 65536) :
    (∀ i, (sb.onDcsBiosWrite address value).1.buffer i ≠ sb.buffer i →
      i < sb.LENGTH ∧ sb.address_ ≤ address
      ∧ ((i = address - sb.address_
            ∧ (sb.onDcsBiosWrite address value).1.buffer i
                = toSChar ((value % 256 : Nat) : Int))
          ∨ (i = address - sb.address_ + 1
            ∧ (sb.onDcsBiosWrite address value).1.buffer i
                = toSChar ((value / 256 % 256 : Nat) : Int))))
    ∧ (sb.writeAll ws).1.buffer sb.LENGTH = sb.buffer sb.LENGTH
    ∧ ((StringBuffer.new sb.LENGTH sb.address_).writeAll ws).1.buffer sb.LENGTH = 0 := by
  refine ⟨?_, (writeAll_terminator ws sb hL ha_ hws).1, ?_⟩
  · intro i hne
    rw [(onDcsBiosWrite_buffer sb address value).1] at hne ⊢
    exact store_changes sb address value i hL ha_ ha hne
  · exact (writeAll_terminator ws (StringBuffer.new sb.LENGTH sb.address_) hL ha_ hws).1

theorem string_buffer_bounds_witness :
    ((StringBuffer.new 3 0x1000).writeAll [(0x1002, 0x4241), (0x1003, 0x4443)]).1.buffer 3
        = (StringBuffer.new 3 0x1000).buffer 3
    ∧ ((StringBuffer.new 3 0x1000).writeAll [(0x1002, 0x4241), (0x1003, 0x4443)]).1.buffer 2
        = 0x41 :=
  ⟨(string_buffer_bounds (StringBuffer.new 3 0x1000) 0x1002 0x4241
      [(0x1002, 0x4241), (0x1003, 0x4443)] (by decide) (by decide) (by decide)
      (by decide)).2.1, by decide⟩

/-- C18 as stated fails: a `StringBuffer<4>` at `0x1000` that received "AB" is
not flushed by `onDcsBiosFrameSync`, which makes no call; it is flushed inside
`onDcsBiosWrite`, by the write to address `0xfffe`. -/
theorem string_buffer_flush_counterexample :
    (((StringBuffer.new 4 0x1000).onDcsBiosWrite 0x1000 0x4241).1.onDcsBiosFrameSync).2 = []
    ∧ (((StringBuffer.new 4 0x1000).onDcsBiosWrite 0x1000 0x4241).1.onDcsBiosWrite
        0xfffe 0).2 = [[0x41, 0x42, 0, 0, 0]] := by
  decide

/-- C18, amended: `onDcsBiosFrameSync` of a `StringBuffer` is the inherited
empty method and never calls the callback. `onDcsBiosWrite` calls it, once and
with the buffer as it is after the stores of that write, exactly when the
address is `0xfffe` and `dirty_` is set; `dirty_` is clear afterwards. For
characters below `0x80`, a write raises `dirty_` only when it changes a
buffered character. -/
theorem string_buffer_flush (sb : StringBuffer) (address value : Nat) :
    sb.onDcsBiosFrameSync = (sb, [])
    ∧ (sb.onDcsBiosWrite address value).2
        = (if address = 0xfffe ∧ (sb.store address value).dirty_ = true
             then [(sb.store address value).contents] else [])
    ∧ ((sb.onDcsBiosWrite address value).2 ≠ [] →
        (sb.onDcsBiosWrite address value).1.dirty_ = false)
    ∧ (value % 256 < 128 → value / 256 % 256 < 128 →
        (sb.store address value).dirty_ = true →
        sb.dirty_ = true ∨ ∃ i, (sb.store address value).buffer i ≠ sb.buffer i) := by
  refine ⟨rfl, ?_, ?_, ?_⟩
  · unfold StringBuffer.onDcsBiosWrite
    dsimp only
    by_cases ha : address = 0xfffe
    · subst ha
      by_cases hd : (sb.store 0xfffe value).dirty_ = true
      · simp [hd]
      · simp [hd]
    · simp [ha]
  · unfold StringBuffer.onDcsBiosWrite
    dsimp only
    split_ifs <;> simp
  · intro hlo hhi hd
    unfold StringBuffer.store at hd ⊢
    dsimp only at hd ⊢
    by_cases c1 : address ≥ sb.address_ ∧ (sb.address_ + sb.LENGTH) % 65536 > address
    · rw [if_pos c1] at hd ⊢
      by_cases c2 : (sb.address_ + sb.LENGTH) % 65536 > (address + 1) % 65536
      · rw [if_pos c2] at hd ⊢
        have hidx : ((address + 65536 - sb.address_) % 65536 + 1) % 65536
            ≠ (address + 65536 - sb.address_) % 65536 := by omega
        rcases setChar_dirty _ _ _ hhi hd with h | h
        · rcases setChar_dirty _ _ _ hlo h with h' | h'
          · exact Or.inl h'
          · refine Or.inr ⟨(address + 65536 - sb.address_) % 65536, ?_⟩
            rw [setChar_other _ _ _ _ (Ne.symm hidx)]
            exact h'
        · refine Or.inr ⟨((address + 65536 - sb.address_) % 65536 + 1) % 65536, ?_⟩
          rw [setChar_other sb _ _ _ hidx] at h
          exact h
      · rw [if_neg c2] at hd ⊢
        rcases setChar_dirty _ _ _ hlo hd with h | h
        · exact Or.inl h
        · exact Or.inr ⟨_, h⟩
    · rw [if_neg c1] at hd
      exact Or.inl hd

end DcsBios
